import Mathlib

/-!
# RPG turn-based battle (`projects/RPG Turn-Based Battle/src/game.cpp`)

A shallow embedding of `game.h` / `game.cpp` / `main.cpp`: the `Character` class
with its four derived classes, the factory function `createCharacter`, the
`GameManager` methods `loadCharacters`, `runBattle`, `determineOutcome` and
`printResults`, and the function `main`.

Modelling conventions.

* The C++ `int` fields are mathematical integers (`Int`).  Signed overflow is
  undefined behaviour in C++ and is not modelled: the embedding computes what the
  program computes as long as every value is representable in the 32-bit `int`
  (`InIntRange`).  The theorems that draw a sign or an order from a damage
  computation assume bounds that exclude overflow (`ApFits`, `WithinBounds`, or
  a bound on `hp_ - d`) and state that the values computed stay in that range
  (`StrikeFits`).  `/` and `%` on `int` are the truncating `Int.tdiv` and
  `Int.tmod`.
* The class hierarchy is a tag `CharType` stored in the record; the virtual
  method `specialAttackDamage` dispatches on the tag.
* The two `std::vector<Character*>` rosters are lists of records.  A method
  that mutates `*this` or a reference argument returns the new record(s).
* The `while (true)` loop of `runBattle` takes a bound on the number of
  iterations; the result says whether the loop was left within the bound.
* The file system and the stream extraction `iss >> type >> name >> hp >> ap` of
  the standard library are parameters of the loader: a map from file names to the
  lines of the file, and a map from a line to the four extracted values.  The
  output streams are the texts written to them.
* `PhaseResult.strikes`, `RoundResult.strikes` and `RunResult.strikes` are a
  ghost record of the calls `attacker->attack(*target)` in execution order,
  each with the two rosters just before and just after the call.  The record
  never influences control flow.
-/

namespace RPG

/-- The dynamic type of a `Character` object: one of the four derived classes. -/
inductive CharType where
  | Archer
  | Warrior
  | Mage
  | Enemy
  deriving DecidableEq

/-- Data members of `class Character` (`game.h`), plus the dynamic type. -/
structure Character where
  type : CharType
  name_ : String
  hp_ : Int
  ap_ : Int
  attackCount_ : Int
  deriving DecidableEq

namespace Character

/-- Constructor `Character::Character(name, hp, ap)`: `attackCount_` starts at 0;
`hp` and `ap` are stored as given. -/
def mk0 (type : CharType) (name : String) (hp ap : Int) : Character :=
  { type := type, name_ := name, hp_ := hp, ap_ := ap, attackCount_ := 0 }

/-- Method `Character::getName`. -/
def getName (c : Character) : String := c.name_

/-- Method `Character::getHP`. -/
def getHP (c : Character) : Int := c.hp_

/-- Method `Character::isAlive`: `return hp_ > 0;`. -/
def isAlive (c : Character) : Bool := decide (c.hp_ > 0)

/-- Method `Character::receiveDamage`: `hp_ = std::max(0, hp_ - damage);`. -/
def receiveDamage (c : Character) (damage : Int) : Character :=
  { c with hp_ := max 0 (c.hp_ - damage) }

/-- The four overrides of `specialAttackDamage(const Character &target)`. -/
def specialAttackDamage (self target : Character) : Int :=
  match self.type with
  | CharType.Archer => 3 * self.ap_
  | CharType.Warrior => self.ap_ + 15
  | CharType.Mage => (2 * self.ap_) + (target.getHP.tdiv 2)
  | CharType.Enemy => 2 * self.ap_

/-- Method `Character::attack(Character &target)`.  Returns the attacker and the
target after the call (the two are distinct objects at every call site). -/
def attack (self target : Character) : Character × Character :=
  if !self.isAlive then (self, target)
  else
    let self1 : Character := { self with attackCount_ := self.attackCount_ + 1 }
    let damage : Int :=
      if self1.attackCount_.tmod 3 == 0 then self1.specialAttackDamage target
      else self1.ap_
    (self1, target.receiveDamage damage)

end Character

/-- The factory `createCharacter(type, name, hp, ap)`; the thrown
`std::invalid_argument` is the error value, carrying `what()`. -/
def createCharacter (type name : String) (hp ap : Int) : Except String Character :=
  if type == "Archer" then Except.ok (Character.mk0 CharType.Archer name hp ap)
  else if type == "Warrior" then Except.ok (Character.mk0 CharType.Warrior name hp ap)
  else if type == "Mage" then Except.ok (Character.mk0 CharType.Mage name hp ap)
  else if type == "Enemy" then Except.ok (Character.mk0 CharType.Enemy name hp ap)
  else Except.error ("Unknown character type: " ++ type)

/-- Data members of `class GameManager`. -/
structure GameManager where
  heroes_ : List Character
  enemies_ : List Character
  deriving DecidableEq

/-- The scan `for (c : roster) if (c->isAlive()) { flag = true; break; }`. -/
def anyAlive : List Character → Bool
  | [] => false
  | c :: cs => if c.isAlive then true else anyAlive cs

/-- The target search of `runBattle`:
`for (c : roster) if (c->isAlive()) { target = c; break; }`.
`none` is `target == nullptr`; otherwise the position of the target in the
roster and the object found there. -/
def findTarget : List Character → Option (Nat × Character)
  | [] => none
  | c :: cs =>
    if c.isAlive then some (0, c)
    else (findTarget cs).map (fun p => (p.1 + 1, p.2))

/-- Ghost record of one call `attacker->attack(*target)` made by `runBattle`. -/
structure Strike where
  /-- The call is in the heroes' turn (`true`) or the enemies' turn (`false`). -/
  byHero : Bool
  /-- Position of the attacker in its roster. -/
  attackerIdx : Nat
  /-- Position of the target in the opposing roster. -/
  targetIdx : Nat
  /-- Both rosters just before the call. -/
  before : GameManager
  /-- Both rosters just after the call. -/
  after : GameManager
  deriving DecidableEq

/-- The pair of rosters seen from the acting side. -/
def mkState (byHero : Bool) (attackers targets : List Character) : GameManager :=
  if byHero then { heroes_ := attackers, enemies_ := targets }
  else { heroes_ := targets, enemies_ := attackers }

/-- Outcome of one `for` loop over the acting roster. -/
structure PhaseResult where
  attackers : List Character
  targets : List Character
  /-- The `return` inside the loop was executed (`target == nullptr`). -/
  returned : Bool
  strikes : List Strike
  deriving DecidableEq

/-- One turn of `runBattle`: `for (Character* a : attackers) { if (a->isAlive())
{ find target; if (target == nullptr) return; a->attack(*target); } }`.
`done` are the attackers already visited, `todo` those still to visit. -/
def phaseAux (byHero : Bool) (done : List Character) :
    List Character → List Character → PhaseResult
  | [], targets =>
    { attackers := done, targets := targets, returned := false, strikes := [] }
  | a :: rest, targets =>
    if a.isAlive then
      match findTarget targets with
      | none =>
        { attackers := done ++ a :: rest, targets := targets, returned := true,
          strikes := [] }
      | some (j, t) =>
        let r := a.attack t
        let targets1 := targets.set j r.2
        let s : Strike :=
          { byHero := byHero, attackerIdx := done.length, targetIdx := j,
            before := mkState byHero (done ++ a :: rest) targets,
            after := mkState byHero (done ++ r.1 :: rest) targets1 }
        let res := phaseAux byHero (done ++ [r.1]) rest targets1
        { res with strikes := s :: res.strikes }
    else phaseAux byHero (done ++ [a]) rest targets

/-- One turn over a whole roster. -/
def phase (byHero : Bool) (attackers targets : List Character) : PhaseResult :=
  phaseAux byHero [] attackers targets

/-- Outcome of one iteration of the `while (true)` loop. -/
structure RoundResult where
  state : GameManager
  /-- The loop was left in this iteration (`return` or `break`). -/
  exited : Bool
  strikes : List Strike
  deriving DecidableEq

/-- Outcome of `runBattle` under a bound on the number of loop iterations. -/
structure RunResult where
  state : GameManager
  /-- The loop was left within the bound, so `state` is the state in which
  `runBattle` returns; otherwise `state` is the state after that many full
  iterations. -/
  finished : Bool
  strikes : List Strike
  deriving DecidableEq

namespace GameManager

/-- The body of the `while (true)` loop of `GameManager::runBattle`. -/
def round (gm : GameManager) : RoundResult :=
  -- Heroes' turn.
  let h := phase true gm.heroes_ gm.enemies_
  let gm1 : GameManager := { heroes_ := h.attackers, enemies_ := h.targets }
  if h.returned then { state := gm1, exited := true, strikes := h.strikes }
  -- Check if any enemy is still alive.
  else if !anyAlive gm1.enemies_ then
    { state := gm1, exited := true, strikes := h.strikes }
  else
    -- Enemies' turn.
    let e := phase false gm1.enemies_ gm1.heroes_
    let gm2 : GameManager := { heroes_ := e.targets, enemies_ := e.attackers }
    if e.returned then
      { state := gm2, exited := true, strikes := h.strikes ++ e.strikes }
    -- Check if any hero is still alive.
    else if !anyAlive gm2.heroes_ then
      { state := gm2, exited := true, strikes := h.strikes ++ e.strikes }
    else { state := gm2, exited := false, strikes := h.strikes ++ e.strikes }

/-- Method `GameManager::runBattle`, with at most `n` iterations of its loop. -/
def runBattle : Nat → GameManager → RunResult
  | 0, gm => { state := gm, finished := false, strikes := [] }
  | n + 1, gm =>
    let r := gm.round
    if r.exited then { state := r.state, finished := true, strikes := r.strikes }
    else
      let x := runBattle n r.state
      { state := x.state, finished := x.finished, strikes := r.strikes ++ x.strikes }

/-- Method `GameManager::determineOutcome`. -/
def determineOutcome (gm : GameManager) : String :=
  let anyHeroAlive := anyAlive gm.heroes_
  let anyEnemyAlive := anyAlive gm.enemies_
  if anyHeroAlive && !anyEnemyAlive then "Your party has won the battle!"
  else if !anyHeroAlive && anyEnemyAlive then "The enemies have won the battle!"
  else if !anyHeroAlive && !anyEnemyAlive then "The battle ended in a draw!"
  else ""

end GameManager

/-- Sum over a roster of the positive part of each `hp_`. -/
def positiveHp (cs : List Character) : Nat :=
  (cs.map (fun c => c.hp_.toNat)).sum

/-- Sum of the positive `hp_` values of all combatants. -/
def totalPositiveHp (gm : GameManager) : Nat :=
  positiveHp gm.heroes_ + positiveHp gm.enemies_

/-- Roster relation: same length, and at every position `R old new`. -/
def Pointwise (R : Character → Character → Prop) (old new : List Character) : Prop :=
  List.Forall₂ R old new

/-- State relation: `Pointwise R` on both rosters. -/
def StatePointwise (R : Character → Character → Prop) (old new : GameManager) : Prop :=
  Pointwise R old.heroes_ new.heroes_ ∧ Pointwise R old.enemies_ new.enemies_

/-- Every combatant of the state satisfies `P`. -/
def AllCombatants (P : Character → Prop) (gm : GameManager) : Prop :=
  (∀ c ∈ gm.heroes_, P c) ∧ (∀ c ∈ gm.enemies_, P c)

/-- Relation between two states of a combatant: a non-negative `hp_` stays
non-negative. -/
def HpFloorKept (old new : Character) : Prop := 0 ≤ old.hp_ → 0 ≤ new.hp_

/-- Relation between two states of a combatant: `hp_` is no larger and `ap_` is
the same. -/
def Decays (old new : Character) : Prop := new.hp_ ≤ old.hp_ ∧ new.ap_ = old.ap_

/-- Some combatant of the roster is alive (`hp_ > 0`). -/
def SomeAlive (cs : List Character) : Prop := ∃ c ∈ cs, 0 < c.hp_

/-- Verdict condition "heroes won": some hero alive and no enemy alive. -/
def HeroesWon (gm : GameManager) : Prop := SomeAlive gm.heroes_ ∧ ¬ SomeAlive gm.enemies_

/-- Verdict condition "enemies won": no hero alive and some enemy alive. -/
def EnemiesWon (gm : GameManager) : Prop := ¬ SomeAlive gm.heroes_ ∧ SomeAlive gm.enemies_

/-- Verdict condition "draw": neither side has an alive combatant. -/
def Draw (gm : GameManager) : Prop := ¬ SomeAlive gm.heroes_ ∧ ¬ SomeAlive gm.enemies_

/-! ## Scenarios -/

/-- Scenario S2 of the specification. -/
def scenarioS2 : GameManager :=
  { heroes_ := [Character.mk0 CharType.Warrior "Thor" 50 5],
    enemies_ := [Character.mk0 CharType.Enemy "Goblin" 30 4] }

/-- A hero created with negative `hp_` against one enemy. -/
def scenarioNegativeHp : GameManager :=
  { heroes_ := [Character.mk0 CharType.Archer "A" (-5) 1],
    enemies_ := [Character.mk0 CharType.Enemy "B" 10 1] }

/-! ## Loader, reporter and driver -/

/-- Outcome of the stream extraction `iss >> type >> name >> hp >> ap` on one
line: the four extracted values, or `none` when the extraction fails. -/
abbrev Extraction := String → Option (String × String × Int × Int)

namespace GameManager

/-- The `while (std::getline(infile, line))` loop of `GameManager::loadCharacters`
over the lines of the file; a thrown exception is the error value, carrying
`what()`. -/
def loadLines (extract : Extraction) : List String → GameManager → Except String GameManager
  | [], gm => Except.ok gm
  | line :: rest, gm =>
    if line == "" then loadLines extract rest gm
    else
      match extract line with
      | none => Except.error ("Invalid line format: " ++ line)
      | some (type, name, hp, ap) =>
        match createCharacter type name hp ap with
        | Except.error e => Except.error e
        | Except.ok character =>
          -- Categorize into heroes or enemies based on the character type.
          if type == "Enemy" then
            loadLines extract rest { gm with enemies_ := gm.enemies_ ++ [character] }
          else
            loadLines extract rest { gm with heroes_ := gm.heroes_ ++ [character] }

/-- Method `GameManager::loadCharacters`.  `openFile filename` is `none` when the
file cannot be opened, otherwise its lines. -/
def loadCharacters (extract : Extraction) (openFile : String → Option (List String))
    (filename : String) (gm : GameManager) : Except String GameManager :=
  match openFile filename with
  | none => Except.error ("Error opening file: " ++ filename)
  | some lines => loadLines extract lines gm

/-- The statement `std::cout << c->getName() << " - HP: " << c->getHP()
<< ", Status: " << (c->isAlive() ? "Alive" : "Defeated") << "\n";`. -/
def printCharacter (cout : String) (c : Character) : String :=
  cout ++ c.getName ++ " - HP: " ++ toString c.getHP ++ ", Status: " ++
    (if c.isAlive then "Alive" else "Defeated") ++ "\n"

/-- Method `GameManager::printResults`; `cout` is the text written so far. -/
def printResults (gm : GameManager) (cout : String) : String :=
  -- Print heroes.
  let cout1 := gm.heroes_.foldl printCharacter cout
  -- Print enemies.
  let cout2 := gm.enemies_.foldl printCharacter cout1
  -- Print final outcome.
  cout2 ++ gm.determineOutcome ++ "\n"

end GameManager

/-- What the process leaves behind: exit code and the two output streams. -/
structure ProcessResult where
  exitCode : Int
  stdout : String
  stderr : String
  deriving DecidableEq

/-- The function `main` of `main.cpp`, with `argv[0]` and the remaining arguments,
and a bound `n` on the iterations of the loop of `runBattle`; `none` when
`runBattle` has not returned within the bound. -/
def main (extract : Extraction) (openFile : String → Option (List String))
    (argv0 : String) (args : List String) (n : Nat) : Option ProcessResult :=
  match args with
  | [] =>
    some { exitCode := 1, stdout := "", stderr := "Usage: " ++ argv0 ++ " <filename>" ++ "\n" }
  | input_filename :: _ =>
    match GameManager.loadCharacters extract openFile input_filename
        { heroes_ := [], enemies_ := [] } with
    | Except.error e =>
      some { exitCode := 1, stdout := "", stderr := "Error: " ++ e ++ "\n" }
    | Except.ok game =>
      let r := GameManager.runBattle n game
      if r.finished then
        some { exitCode := 0, stdout := r.state.printResults "", stderr := "" }
      else none

/-! ## Specification of the loader and the reporter -/

/-- The class named by a class token, if it is one of the four. -/
def knownType (type : String) : Option CharType :=
  if type = "Archer" then some CharType.Archer
  else if type = "Warrior" then some CharType.Warrior
  else if type = "Mage" then some CharType.Mage
  else if type = "Enemy" then some CharType.Enemy
  else none

/-- The records of the non-empty lines, in file order. -/
def parsedRecords (extract : Extraction) (lines : List String) :
    List (String × String × Int × Int) :=
  (lines.filter (fun l => l ≠ "")).filterMap extract

/-- The combatant described by a record: the given name, hp and ap, and
attack count 0. -/
def recordCharacter (r : String × String × Int × Int) : Option Character :=
  (knownType r.1).map
    (fun t => { type := t, name_ := r.2.1, hp_ := r.2.2.1, ap_ := r.2.2.2, attackCount_ := 0 })

/-- The first record whose class is not one of the four, if any. -/
def firstUnknown (records : List (String × String × Int × Int)) :
    Option (String × String × Int × Int) :=
  records.find? (fun r => (knownType r.1).isNone)

/-- The report line of a combatant, in the words of the specification. -/
def reportLine (c : Character) : String :=
  if 0 < c.hp_ then c.name_ ++ " - HP: " ++ toString c.hp_ ++ ", Status: Alive"
  else c.name_ ++ " - HP: " ++ toString c.hp_ ++ ", Status: Defeated"

/-- The lines of the report, in the words of the specification: heroes in
roster order, then enemies in roster order, then the verdict. -/
def reportLines (gm : GameManager) : List String :=
  gm.heroes_.map reportLine ++ gm.enemies_.map reportLine ++ [gm.determineOutcome]

/-- The text made of the given lines, each ended by a newline. -/
def unlines : List String → String
  | [] => ""
  | l :: ls => l ++ "\n" ++ unlines ls

/-- An extraction for scenario S6: it knows the one line of that scenario. -/
def extractS6 : Extraction := fun line =>
  if line = "Wizard Merlin 30 4" then some ("Wizard", "Merlin", 30, 4) else none

/-- An extraction for scenario S1: it knows the two lines of that scenario. -/
def extractS1 : Extraction := fun line =>
  if line = "Mage Gandalf 100 10" then some ("Mage", "Gandalf", 100, 10)
  else if line = "Enemy Orc 80 5" then some ("Enemy", "Orc", 80, 5)
  else none

/-- Scenario S1 of the specification. -/
def scenarioS1 : GameManager :=
  { heroes_ := [Character.mk0 CharType.Mage "Gandalf" 100 10],
    enemies_ := [Character.mk0 CharType.Enemy "Orc" 80 5] }

/-! ## Reading the record of strikes -/

/-- The roster of the side that acts in a turn. -/
def acting (byHero : Bool) (gm : GameManager) : List Character :=
  if byHero then gm.heroes_ else gm.enemies_

/-- The roster of the side that is attacked in a turn. -/
def opposing (byHero : Bool) (gm : GameManager) : List Character :=
  if byHero then gm.enemies_ else gm.heroes_

/-- A strike record describes one call `a->attack(*t)`: `a` is the combatant at
`attackerIdx` of the acting roster and is alive, `t` is the combatant at
`targetIdx` of the opposing roster, is alive, and nobody before it in that roster
is alive; after the call the two rosters differ from before only in that `a` and
`t` are replaced by the two results of `attack`. -/
def Strike.Sound (s : Strike) : Prop :=
  ∃ a t : Character,
    (acting s.byHero s.before)[s.attackerIdx]? = some a ∧
    (opposing s.byHero s.before)[s.targetIdx]? = some t ∧
    0 < a.hp_ ∧ 0 < t.hp_ ∧
    (∀ (i : Nat) (c : Character), i < s.targetIdx →
      (opposing s.byHero s.before)[i]? = some c → c.hp_ ≤ 0) ∧
    acting s.byHero s.after = (acting s.byHero s.before).set s.attackerIdx (a.attack t).1 ∧
    opposing s.byHero s.after = (opposing s.byHero s.before).set s.targetIdx (a.attack t).2

/-- The strikes lead from state `first` to state `last`: the first strike starts
in `first`, every later strike starts in the state the previous one left, and
the last one leaves `last`. -/
def Chained : GameManager → List Strike → GameManager → Prop
  | first, [], last => first = last
  | first, s :: rest, last => s.before = first ∧ Chained s.after rest last

/-- Number of strikes of the record made by the combatant at position `i` of the
heroes (`byHero = true`) or of the enemies (`byHero = false`). -/
def strikesBy (byHero : Bool) (i : Nat) (strikes : List Strike) : Nat :=
  strikes.countP (fun s => s.byHero == byHero && s.attackerIdx == i)

/-- Focused fire on a roster, relative to its initial state: whenever the
combatant at a position `j` has an `hp_` different from its initial one, no
combatant at an earlier position is alive. -/
def FocusedFire (initial current : List Character) : Prop :=
  ∀ (i j : Nat) (ci cj c0 : Character), i < j →
    current[i]? = some ci → current[j]? = some cj → initial[j]? = some c0 →
    cj.hp_ ≠ c0.hp_ → ci.hp_ ≤ 0

/-- The attack counters of `new` are those of `old` plus, at every position `i`,
the number of strikes of the record made from position `i` of that side. -/
def CountsAdvance (byHero : Bool) (strikes : List Strike) (old new : List Character) : Prop :=
  ∀ i : Nat, (new[i]?).map Character.attackCount_ =
    (old[i]?).map (fun c => c.attackCount_ + (strikesBy byHero i strikes : Int))

/-- The combatant `c` is the one described by record `r`: the class named by the
class token, the given name, hp and ap, and attack count 0. -/
def RecordOf (r : String × String × Int × Int) (c : Character) : Prop :=
  knownType r.1 = some c.type ∧ c.name_ = r.2.1 ∧ c.hp_ = r.2.2.1 ∧ c.ap_ = r.2.2.2 ∧
    c.attackCount_ = 0

/-- Two heroes against two enemies, the first enemy weaker than one hit. -/
def scenarioTwoOnTwo : GameManager :=
  { heroes_ := [Character.mk0 CharType.Warrior "W1" 50 10,
      Character.mk0 CharType.Warrior "W2" 50 10],
    enemies_ := [Character.mk0 CharType.Enemy "E1" 5 1,
      Character.mk0 CharType.Enemy "E2" 20 1] }

/-- A Warrior and a Mage against one enemy: in round 3 the Mage's special attack
follows the Warrior's attack on the same target. -/
def scenarioFresh : GameManager :=
  { heroes_ := [Character.mk0 CharType.Warrior "W" 100 10,
      Character.mk0 CharType.Mage "M" 100 10],
    enemies_ := [Character.mk0 CharType.Enemy "E" 200 1] }

/-- Scenario S4 of the specification. -/
def scenarioS4 : GameManager :=
  { heroes_ := [Character.mk0 CharType.Warrior "A" 10 10],
    enemies_ := [Character.mk0 CharType.Enemy "B" 10 10] }

/-- Scenario S5 of the specification. -/
def scenarioS5 : GameManager :=
  { heroes_ := [],
    enemies_ := [Character.mk0 CharType.Enemy "Lone" 10 5] }

/-- One hero and one enemy, both created with hp 0. -/
def scenarioAllDefeated : GameManager :=
  { heroes_ := [Character.mk0 CharType.Warrior "A" 0 10],
    enemies_ := [Character.mk0 CharType.Enemy "B" 0 10] }

/-- Shape of a roster under focused fire, relative to its initial state: if the
combatant at position `k` is alive and its `hp_` differs from its initial one,
then nobody before it is alive and everybody after it has its initial `hp_`. -/
def FirePrefix (initial current : List Character) : Prop :=
  ∀ (k : Nat) (ck c0k : Character), current[k]? = some ck → initial[k]? = some c0k →
    0 < ck.hp_ → ck.hp_ ≠ c0k.hp_ →
    (∀ (i : Nat) (ci : Character), i < k → current[i]? = some ci → ci.hp_ ≤ 0) ∧
    (∀ (j : Nat) (cj c0 : Character), k < j → current[j]? = some cj →
      initial[j]? = some c0 → cj.hp_ = c0.hp_)

/-- Three heroes against three enemies. -/
def scenarioThreeOnThree : GameManager :=
  { heroes_ := [Character.mk0 CharType.Archer "H1" 6 4, Character.mk0 CharType.Mage "H2" 9 3,
      Character.mk0 CharType.Warrior "H3" 30 2],
    enemies_ := [Character.mk0 CharType.Enemy "E1" 7 3, Character.mk0 CharType.Enemy "E2" 12 2,
      Character.mk0 CharType.Enemy "E3" 40 1] }

/-- The state of the battle of Archer A 10/0 against Enemy B 10/0 in which the
two attack counters are `k` and `k'`. -/
def zeroApState (k k' : Int) : GameManager :=
  { heroes_ := [{ type := CharType.Archer, name_ := "A", hp_ := 10, ap_ := 0, attackCount_ := k }],
    enemies_ := [{ type := CharType.Enemy, name_ := "B", hp_ := 10, ap_ := 0, attackCount_ := k' }] }

/-- An extraction for the input of two lines `Archer A 10 0` and `Enemy B 10 0`. -/
def extractZeroAp : Extraction := fun line =>
  if line = "Archer A 10 0" then some ("Archer", "A", 10, 0)
  else if line = "Enemy B 10 0" then some ("Enemy", "B", 10, 0)
  else none

/-! ## The range of the 32-bit `int` -/

/-- Largest value of the 32-bit `int` of the program. -/
def INT_MAX : Int := 2147483647

/-- Smallest value of the 32-bit `int` of the program. -/
def INT_MIN : Int := -2147483648

/-- The value is representable in the 32-bit `int` of the program. -/
def InIntRange (x : Int) : Prop := INT_MIN ≤ x ∧ x ≤ INT_MAX

/-- The `ap_` of the combatant is small enough for the special damage of its class
not to exceed `INT_MAX` on any target whose hp is at most `INT_MAX`. -/
def ApFits (c : Character) : Prop :=
  match c.type with
  | CharType.Archer => 3 * c.ap_ ≤ INT_MAX
  | CharType.Warrior => c.ap_ + 15 ≤ INT_MAX
  | CharType.Mage => 2 * c.ap_ + INT_MAX / 2 ≤ INT_MAX
  | CharType.Enemy => 2 * c.ap_ ≤ INT_MAX

/-- Relation between two states of a combatant: a negative `hp_` is kept. -/
def NegativeHpKept (old new : Character) : Prop := old.hp_ < 0 → new.hp_ = old.hp_

/-- The bounds under which no damage computation of a battle overflows: `ap_` is
not negative and fits the class, and `hp_` is representable in `int`. -/
def WithinBounds (c : Character) : Prop := 0 ≤ c.ap_ ∧ ApFits c ∧ InIntRange c.hp_

instance decidableInIntRange (x : Int) : Decidable (InIntRange x) :=
  inferInstanceAs (Decidable (INT_MIN ≤ x ∧ x ≤ INT_MAX))

instance decidableApFits (c : Character) : Decidable (ApFits c) :=
  match h : c.type with
  | CharType.Archer =>
    decidable_of_iff (3 * c.ap_ ≤ INT_MAX) (by unfold ApFits; rw [h])
  | CharType.Warrior =>
    decidable_of_iff (c.ap_ + 15 ≤ INT_MAX) (by unfold ApFits; rw [h])
  | CharType.Mage =>
    decidable_of_iff (2 * c.ap_ + INT_MAX / 2 ≤ INT_MAX) (by unfold ApFits; rw [h])
  | CharType.Enemy =>
    decidable_of_iff (2 * c.ap_ ≤ INT_MAX) (by unfold ApFits; rw [h])

instance decidableWithinBounds (c : Character) : Decidable (WithinBounds c) :=
  inferInstanceAs (Decidable (0 ≤ c.ap_ ∧ ApFits c ∧ InIntRange c.hp_))

/-! ## Theorems -/

/-! ### Arithmetic of the truncating operators -/

theorem tmod_three_eq_zero_iff (x : Int) : x.tmod 3 = 0 ↔ x % 3 = 0 := by
  constructor
  · intro h
    exact Int.emod_eq_zero_of_dvd (Int.dvd_of_tmod_eq_zero h)
  · intro h
    exact Int.tmod_eq_zero_of_dvd (Int.dvd_of_emod_eq_zero h)

theorem isAlive_iff (c : Character) : c.isAlive = true ↔ 0 < c.hp_ := by
  simp [Character.isAlive]

theorem isAlive_false_iff (c : Character) : c.isAlive = false ↔ c.hp_ ≤ 0 := by
  simp [Character.isAlive]

theorem anyAlive_iff (cs : List Character) :
    anyAlive cs = true ↔ ∃ c ∈ cs, 0 < c.hp_ := by
  induction cs with
  | nil => simp [anyAlive]
  | cons c cs ih =>
    by_cases h : c.isAlive = true
    · simp [anyAlive, h]
      exact Or.inl ((isAlive_iff c).1 h)
    · have h0 : ¬ 0 < c.hp_ := fun hp => h ((isAlive_iff c).2 hp)
      simp [anyAlive, h, ih, h0]

/-! ### Roster relations -/

theorem pointwise_refl {R : Character → Character → Prop} (hrefl : ∀ c, R c c)
    (l : List Character) : Pointwise R l l := by
  unfold Pointwise
  induction l with
  | nil => exact List.Forall₂.nil
  | cons c cs ih => exact List.Forall₂.cons (hrefl c) ih

theorem pointwise_trans {R : Character → Character → Prop}
    (htrans : ∀ a b c, R a b → R b c → R a c) {l1 l2 l3 : List Character}
    (h12 : Pointwise R l1 l2) (h23 : Pointwise R l2 l3) : Pointwise R l1 l3 := by
  unfold Pointwise at *
  induction h12 generalizing l3 with
  | nil => cases h23; exact List.Forall₂.nil
  | cons hab _ ih =>
    cases h23 with
    | cons hbc hrest => exact List.Forall₂.cons (htrans _ _ _ hab hbc) (ih hrest)

theorem pointwise_append {R : Character → Character → Prop} {l1 l2 m1 m2 : List Character}
    (h1 : Pointwise R l1 l2) (h2 : Pointwise R m1 m2) :
    Pointwise R (l1 ++ m1) (l2 ++ m2) := by
  unfold Pointwise at *
  induction h1 with
  | nil => simpa using h2
  | cons hab _ ih => exact List.Forall₂.cons hab ih

theorem pointwise_all {R : Character → Character → Prop} {P : Character → Prop}
    (hP : ∀ a b, P a → R a b → P b) {l l' : List Character}
    (h : Pointwise R l l') (hl : ∀ c ∈ l, P c) : ∀ c ∈ l', P c := by
  unfold Pointwise at h
  induction h with
  | nil => intro c hc; cases hc
  | cons hab _ ih =>
    intro c hc
    rcases List.mem_cons.1 hc with rfl | hc
    · exact hP _ _ (hl _ (List.mem_cons_self _ _)) hab
    · exact ih (fun d hd => hl d (List.mem_cons_of_mem _ hd)) c hc

theorem pointwise_length {R : Character → Character → Prop} {l l' : List Character}
    (h : Pointwise R l l') : l.length = l'.length :=
  List.Forall₂.length_eq h

/-! ### The target search -/

theorem findTarget_eq_none (ts : List Character) :
    findTarget ts = none ↔ anyAlive ts = false := by
  induction ts with
  | nil => simp [findTarget, anyAlive]
  | cons c cs ih =>
    by_cases h : c.isAlive = true
    · simp [findTarget, anyAlive, h]
    · simp [findTarget, anyAlive, h, ih]

theorem findTarget_cons_some {c : Character} {cs : List Character} {j : Nat} {t : Character}
    (h : findTarget (c :: cs) = some (j, t)) :
    (c.isAlive = true ∧ j = 0 ∧ t = c) ∨
    (c.isAlive = false ∧ ∃ i, j = i + 1 ∧ findTarget cs = some (i, t)) := by
  by_cases hc : c.isAlive = true
  · left
    simp [findTarget, hc] at h
    exact ⟨hc, h.1.symm, h.2.symm⟩
  · right
    simp [findTarget, hc] at h
    obtain ⟨i, hfind, hi⟩ := h
    exact ⟨by simpa using hc, i, hi.symm, hfind⟩

theorem findTarget_some_spec {ts : List Character} {j : Nat} {t : Character}
    (h : findTarget ts = some (j, t)) : t ∈ ts ∧ 0 < t.hp_ ∧ ts[j]? = some t := by
  induction ts generalizing j with
  | nil => simp [findTarget] at h
  | cons c cs ih =>
    rcases findTarget_cons_some h with ⟨hc, rfl, rfl⟩ | ⟨_, i, rfl, hi⟩
    · exact ⟨List.mem_cons_self _ _, (isAlive_iff _).1 hc, by simp⟩
    · obtain ⟨hm, hp, hg⟩ := ih hi
      exact ⟨List.mem_cons_of_mem _ hm, hp, by simpa using hg⟩

theorem pointwise_set_target {R : Character → Character → Prop} (hrefl : ∀ c, R c c)
    {ts : List Character} {j : Nat} {t : Character}
    (h : findTarget ts = some (j, t)) {t' : Character} (hR : R t t') :
    Pointwise R ts (ts.set j t') := by
  induction ts generalizing j with
  | nil => simp [findTarget] at h
  | cons c cs ih =>
    rcases findTarget_cons_some h with ⟨_, rfl, rfl⟩ | ⟨_, i, rfl, hi⟩
    · exact List.Forall₂.cons hR (pointwise_refl hrefl cs)
    · exact List.Forall₂.cons (hrefl c) (ih hi)

theorem positiveHp_set_target {ts : List Character} {j : Nat} {t : Character}
    (h : findTarget ts = some (j, t)) (t' : Character) :
    positiveHp (ts.set j t') + t.hp_.toNat = positiveHp ts + t'.hp_.toNat := by
  induction ts generalizing j with
  | nil => simp [findTarget] at h
  | cons c cs ih =>
    rcases findTarget_cons_some h with ⟨_, rfl, rfl⟩ | ⟨_, i, rfl, hi⟩
    · simp [positiveHp]; omega
    · have := ih hi
      simp [positiveHp] at this ⊢
      omega

/-! ### `Character::attack` -/

/-- The damage passed to `receiveDamage` by an attacker whose counter is `c`
before the call. -/
theorem attack_alive (a t : Character) (h : 0 < a.hp_) :
    a.attack t =
      ({ a with attackCount_ := a.attackCount_ + 1 },
        t.receiveDamage
          (if (a.attackCount_ + 1) % 3 = 0 then a.specialAttackDamage t else a.ap_)) := by
  have ha : a.isAlive = true := (isAlive_iff a).2 h
  by_cases hm : (a.attackCount_ + 1) % 3 = 0
  · have ht : (a.attackCount_ + 1).tmod 3 = 0 := (tmod_three_eq_zero_iff _).2 hm
    simp [Character.attack, ha, hm, ht, Character.specialAttackDamage]
  · have ht : ¬ (a.attackCount_ + 1).tmod 3 = 0 := fun h0 =>
      hm ((tmod_three_eq_zero_iff _).1 h0)
    simp [Character.attack, ha, hm, ht]

theorem attack_dead (a t : Character) (h : a.hp_ ≤ 0) : a.attack t = (a, t) := by
  have ha : a.isAlive = false := (isAlive_false_iff a).2 h
  simp [Character.attack, ha]

theorem phaseAux_nil (byHero : Bool) (done targets : List Character) :
    phaseAux byHero done [] targets =
      { attackers := done, targets := targets, returned := false, strikes := [] } := rfl

theorem phaseAux_dead (byHero : Bool) (done : List Character) {a : Character}
    (rest targets : List Character) (h : a.isAlive = false) :
    phaseAux byHero done (a :: rest) targets = phaseAux byHero (done ++ [a]) rest targets := by
  simp [phaseAux, h]

theorem phaseAux_no_target (byHero : Bool) (done : List Character) {a : Character}
    (rest : List Character) {targets : List Character} (h : a.isAlive = true)
    (hf : findTarget targets = none) :
    phaseAux byHero done (a :: rest) targets =
      { attackers := done ++ a :: rest, targets := targets, returned := true,
        strikes := [] } := by
  simp [phaseAux, h, hf]

theorem phaseAux_strike (byHero : Bool) (done : List Character) {a : Character}
    (rest : List Character) {targets : List Character} {j : Nat} {t : Character}
    (h : a.isAlive = true) (hf : findTarget targets = some (j, t)) :
    phaseAux byHero done (a :: rest) targets =
      { phaseAux byHero (done ++ [(a.attack t).1]) rest (targets.set j (a.attack t).2) with
        strikes :=
          { byHero := byHero, attackerIdx := done.length, targetIdx := j,
            before := mkState byHero (done ++ a :: rest) targets,
            after := mkState byHero (done ++ (a.attack t).1 :: rest)
              (targets.set j (a.attack t).2) } ::
          (phaseAux byHero (done ++ [(a.attack t).1]) rest
            (targets.set j (a.attack t).2)).strikes } := by
  simp [phaseAux, h, hf]

/-! ### State relations -/

theorem statePointwise_refl {R : Character → Character → Prop} (hrefl : ∀ c, R c c)
    (gm : GameManager) : StatePointwise R gm gm :=
  ⟨pointwise_refl hrefl _, pointwise_refl hrefl _⟩

theorem statePointwise_trans {R : Character → Character → Prop}
    (htrans : ∀ a b c, R a b → R b c → R a c) {g1 g2 g3 : GameManager}
    (h12 : StatePointwise R g1 g2) (h23 : StatePointwise R g2 g3) : StatePointwise R g1 g3 :=
  ⟨pointwise_trans htrans h12.1 h23.1, pointwise_trans htrans h12.2 h23.2⟩

theorem statePointwise_mkState {R : Character → Character → Prop} (byHero : Bool)
    {as as' ts ts' : List Character} (ha : Pointwise R as as') (ht : Pointwise R ts ts') :
    StatePointwise R (mkState byHero as ts) (mkState byHero as' ts') := by
  cases byHero
  · exact ⟨ht, ha⟩
  · exact ⟨ha, ht⟩

theorem statePointwise_all {R : Character → Character → Prop} {P : Character → Prop}
    (hP : ∀ a b, P a → R a b → P b) {g g' : GameManager}
    (h : StatePointwise R g g') (hg : AllCombatants P g) : AllCombatants P g' :=
  ⟨pointwise_all hP h.1 hg.1, pointwise_all hP h.2 hg.2⟩

/-! ### One turn preserves every relation that `attack` preserves -/

/-- If `R` is a preorder on combatants, `P` is kept along `R`, and an attack by
an alive attacker on an alive target relates both to their new states, then one
turn relates the rosters before to the rosters after, and so does every strike
of the turn. -/
theorem phaseAux_pointwise {R : Character → Character → Prop} {P : Character → Prop}
    (hrefl : ∀ c, R c c) (htrans : ∀ a b c, R a b → R b c → R a c)
    (hP : ∀ a b, P a → R a b → P b)
    (hatk : ∀ a t, P a → P t → 0 < a.hp_ → 0 < t.hp_ →
      R a (a.attack t).1 ∧ R t (a.attack t).2)
    (byHero : Bool) (todo : List Character) :
    ∀ (done targets : List Character),
      (∀ c ∈ done, P c) → (∀ c ∈ todo, P c) → (∀ c ∈ targets, P c) →
      Pointwise R (done ++ todo) (phaseAux byHero done todo targets).attackers ∧
      Pointwise R targets (phaseAux byHero done todo targets).targets ∧
      ∀ s ∈ (phaseAux byHero done todo targets).strikes,
        StatePointwise R (mkState byHero (done ++ todo) targets) s.before ∧
        StatePointwise R s.before s.after := by
  induction todo with
  | nil =>
    intro done targets _ _ _
    rw [phaseAux_nil]
    refine ⟨by simpa using pointwise_refl hrefl done, pointwise_refl hrefl _, ?_⟩
    intro s hs
    cases hs
  | cons a rest ih =>
    intro done targets hd htodo hts
    have hPa : P a := htodo a (List.mem_cons_self _ _)
    have hrest : ∀ c ∈ rest, P c := fun c hc => htodo c (List.mem_cons_of_mem _ hc)
    by_cases ha : a.isAlive = true
    · cases hf : findTarget targets with
      | none =>
        rw [phaseAux_no_target byHero done rest ha hf]
        refine ⟨pointwise_refl hrefl _, pointwise_refl hrefl _, ?_⟩
        intro s hs
        cases hs
      | some p =>
        obtain ⟨j, t⟩ := p
        obtain ⟨htmem, htpos, _⟩ := findTarget_some_spec hf
        obtain ⟨hRa, hRt⟩ := hatk a t hPa (hts t htmem) ((isAlive_iff a).1 ha) htpos
        have hset : Pointwise R targets (targets.set j (a.attack t).2) :=
          pointwise_set_target hrefl hf hRt
        have hatt : Pointwise R (done ++ a :: rest) (done ++ (a.attack t).1 :: rest) :=
          pointwise_append (pointwise_refl hrefl done)
            (List.Forall₂.cons hRa (pointwise_refl hrefl rest))
        have hd1 : ∀ c ∈ done ++ [(a.attack t).1], P c := by
          intro c hc
          rcases List.mem_append.1 hc with hc | hc
          · exact hd c hc
          · rw [List.mem_singleton.1 hc]
            exact hP _ _ hPa hRa
        have hts1 : ∀ c ∈ targets.set j (a.attack t).2, P c := pointwise_all hP hset hts
        obtain ⟨ih1, ih2, ih3⟩ := ih (done ++ [(a.attack t).1]) (targets.set j (a.attack t).2)
          hd1 hrest hts1
        have hassoc : done ++ [(a.attack t).1] ++ rest = done ++ (a.attack t).1 :: rest := by
          simp
        rw [hassoc] at ih1 ih3
        have hstep : StatePointwise R (mkState byHero (done ++ a :: rest) targets)
            (mkState byHero (done ++ (a.attack t).1 :: rest) (targets.set j (a.attack t).2)) :=
          statePointwise_mkState byHero hatt hset
        rw [phaseAux_strike byHero done rest ha hf]
        refine ⟨pointwise_trans htrans hatt ih1, pointwise_trans htrans hset ih2, ?_⟩
        intro s hs
        rcases List.mem_cons.1 hs with rfl | hs
        · exact ⟨statePointwise_refl hrefl _, hstep⟩
        · exact ⟨statePointwise_trans htrans hstep (ih3 s hs).1, (ih3 s hs).2⟩
    · have ha0 : a.isAlive = false := by simpa using ha
      have hd1 : ∀ c ∈ done ++ [a], P c := by
        intro c hc
        rcases List.mem_append.1 hc with hc | hc
        · exact hd c hc
        · rw [List.mem_singleton.1 hc]
          exact hPa
      have hassoc : done ++ [a] ++ rest = done ++ a :: rest := by simp
      have := ih (done ++ [a]) targets hd1 hrest hts
      rw [hassoc] at this
      rw [phaseAux_dead byHero done rest targets ha0]
      exact this

/-! ### One iteration of the loop, and the whole loop -/

/-- The five exits of the loop body, folded into two cases. -/
theorem round_eq (gm : GameManager) :
    gm.round =
      if (phase true gm.heroes_ gm.enemies_).returned = true ∨
          anyAlive (phase true gm.heroes_ gm.enemies_).targets = false then
        { state :=
            { heroes_ := (phase true gm.heroes_ gm.enemies_).attackers,
              enemies_ := (phase true gm.heroes_ gm.enemies_).targets },
          exited := true,
          strikes := (phase true gm.heroes_ gm.enemies_).strikes }
      else
        { state :=
            { heroes_ := (phase false (phase true gm.heroes_ gm.enemies_).targets
                (phase true gm.heroes_ gm.enemies_).attackers).targets,
              enemies_ := (phase false (phase true gm.heroes_ gm.enemies_).targets
                (phase true gm.heroes_ gm.enemies_).attackers).attackers },
          exited :=
            (phase false (phase true gm.heroes_ gm.enemies_).targets
              (phase true gm.heroes_ gm.enemies_).attackers).returned ||
            !anyAlive (phase false (phase true gm.heroes_ gm.enemies_).targets
              (phase true gm.heroes_ gm.enemies_).attackers).targets,
          strikes := (phase true gm.heroes_ gm.enemies_).strikes ++
            (phase false (phase true gm.heroes_ gm.enemies_).targets
              (phase true gm.heroes_ gm.enemies_).attackers).strikes } := by
  unfold GameManager.round
  simp only []
  cases (phase true gm.heroes_ gm.enemies_).returned <;>
    cases anyAlive (phase true gm.heroes_ gm.enemies_).targets <;>
    cases (phase false (phase true gm.heroes_ gm.enemies_).targets
      (phase true gm.heroes_ gm.enemies_).attackers).returned <;>
    cases anyAlive (phase false (phase true gm.heroes_ gm.enemies_).targets
      (phase true gm.heroes_ gm.enemies_).attackers).targets <;>
    simp

theorem runBattle_zero (gm : GameManager) :
    GameManager.runBattle 0 gm = { state := gm, finished := false, strikes := [] } := rfl

theorem runBattle_succ_exited (n : Nat) (gm : GameManager) (h : gm.round.exited = true) :
    GameManager.runBattle (n + 1) gm =
      { state := gm.round.state, finished := true, strikes := gm.round.strikes } := by
  simp [GameManager.runBattle, h]

theorem runBattle_succ_continue (n : Nat) (gm : GameManager) (h : gm.round.exited = false) :
    GameManager.runBattle (n + 1) gm =
      { state := (GameManager.runBattle n gm.round.state).state,
        finished := (GameManager.runBattle n gm.round.state).finished,
        strikes := gm.round.strikes ++ (GameManager.runBattle n gm.round.state).strikes } := by
  simp [GameManager.runBattle, h]

theorem phase_pointwise {R : Character → Character → Prop} {P : Character → Prop}
    (hrefl : ∀ c, R c c) (htrans : ∀ a b c, R a b → R b c → R a c)
    (hP : ∀ a b, P a → R a b → P b)
    (hatk : ∀ a t, P a → P t → 0 < a.hp_ → 0 < t.hp_ →
      R a (a.attack t).1 ∧ R t (a.attack t).2)
    (byHero : Bool) (attackers targets : List Character)
    (ha : ∀ c ∈ attackers, P c) (ht : ∀ c ∈ targets, P c) :
    Pointwise R attackers (phase byHero attackers targets).attackers ∧
    Pointwise R targets (phase byHero attackers targets).targets ∧
    ∀ s ∈ (phase byHero attackers targets).strikes,
      StatePointwise R (mkState byHero attackers targets) s.before ∧
      StatePointwise R s.before s.after := by
  have h := phaseAux_pointwise hrefl htrans hP hatk byHero attackers [] targets
    (fun c hc => by cases hc) ha ht
  simpa [phase] using h

theorem round_pointwise {R : Character → Character → Prop} {P : Character → Prop}
    (hrefl : ∀ c, R c c) (htrans : ∀ a b c, R a b → R b c → R a c)
    (hP : ∀ a b, P a → R a b → P b)
    (hatk : ∀ a t, P a → P t → 0 < a.hp_ → 0 < t.hp_ →
      R a (a.attack t).1 ∧ R t (a.attack t).2)
    (gm : GameManager) (hg : AllCombatants P gm) :
    StatePointwise R gm gm.round.state ∧
    ∀ s ∈ gm.round.strikes, StatePointwise R gm s.before ∧ StatePointwise R s.before s.after := by
  obtain ⟨h1, h2, h3⟩ := phase_pointwise hrefl htrans hP hatk true gm.heroes_ gm.enemies_
    hg.1 hg.2
  have hgm1 : StatePointwise R gm
      { heroes_ := (phase true gm.heroes_ gm.enemies_).attackers,
        enemies_ := (phase true gm.heroes_ gm.enemies_).targets } := ⟨h1, h2⟩
  obtain ⟨e1, e2, e3⟩ := phase_pointwise hrefl htrans hP hatk false
    (phase true gm.heroes_ gm.enemies_).targets (phase true gm.heroes_ gm.enemies_).attackers
    (pointwise_all hP h2 hg.2) (pointwise_all hP h1 hg.1)
  rw [round_eq]
  split
  · exact ⟨hgm1, h3⟩
  · refine ⟨statePointwise_trans htrans hgm1 ⟨e2, e1⟩, ?_⟩
    intro s hs
    rcases List.mem_append.1 hs with hs | hs
    · exact h3 s hs
    · exact ⟨statePointwise_trans htrans hgm1 (e3 s hs).1, (e3 s hs).2⟩

theorem runBattle_pointwise {R : Character → Character → Prop} {P : Character → Prop}
    (hrefl : ∀ c, R c c) (htrans : ∀ a b c, R a b → R b c → R a c)
    (hP : ∀ a b, P a → R a b → P b)
    (hatk : ∀ a t, P a → P t → 0 < a.hp_ → 0 < t.hp_ →
      R a (a.attack t).1 ∧ R t (a.attack t).2)
    (n : Nat) :
    ∀ gm : GameManager, AllCombatants P gm →
      StatePointwise R gm (GameManager.runBattle n gm).state ∧
      ∀ s ∈ (GameManager.runBattle n gm).strikes,
        StatePointwise R gm s.before ∧ StatePointwise R s.before s.after := by
  induction n with
  | zero =>
    intro gm _
    rw [runBattle_zero]
    exact ⟨statePointwise_refl hrefl gm, fun s hs => by cases hs⟩
  | succ n ih =>
    intro gm hg
    obtain ⟨r1, r2⟩ := round_pointwise hrefl htrans hP hatk gm hg
    by_cases hx : gm.round.exited = true
    · rw [runBattle_succ_exited n gm hx]
      exact ⟨r1, r2⟩
    · have hx0 : gm.round.exited = false := by simpa using hx
      obtain ⟨i1, i2⟩ := ih gm.round.state (statePointwise_all hP r1 hg)
      rw [runBattle_succ_continue n gm hx0]
      refine ⟨statePointwise_trans htrans r1 i1, ?_⟩
      intro s hs
      rcases List.mem_append.1 hs with hs | hs
      · exact r2 s hs
      · exact ⟨statePointwise_trans htrans r1 (i2 s hs).1, (i2 s hs).2⟩

/-! ### Damage dealt by an attack on an alive target -/

theorem special_nonneg (a t : Character) (hap : 0 ≤ a.ap_) (ht : 0 < t.hp_) :
    0 ≤ a.specialAttackDamage t := by
  have hq : 0 ≤ t.hp_.tdiv 2 := Int.tdiv_nonneg (le_of_lt ht) (by decide)
  unfold Character.specialAttackDamage Character.getHP
  cases a.type <;> simp only [] <;> omega

theorem special_pos (a t : Character) (hap : 0 < a.ap_) (ht : 0 < t.hp_) :
    0 < a.specialAttackDamage t := by
  have hq : 0 ≤ t.hp_.tdiv 2 := Int.tdiv_nonneg (le_of_lt ht) (by decide)
  unfold Character.specialAttackDamage Character.getHP
  cases a.type <;> simp only [] <;> omega

theorem attack_decays (a t : Character) (hap : 0 ≤ a.ap_) (_hat : 0 ≤ t.ap_)
    (ha : 0 < a.hp_) (ht : 0 < t.hp_) :
    Decays a (a.attack t).1 ∧ Decays t (a.attack t).2 := by
  rw [attack_alive a t ha]
  refine ⟨⟨le_refl _, rfl⟩, ?_, rfl⟩
  have hs := special_nonneg a t hap ht
  simp only [Character.receiveDamage]
  split <;> exact max_le (le_of_lt ht) (by omega)

theorem attack_strict (a t : Character) (hap : 0 < a.ap_) (ha : 0 < a.hp_) (ht : 0 < t.hp_) :
    (a.attack t).2.hp_ < t.hp_ := by
  rw [attack_alive a t ha]
  have hs := special_pos a t hap ht
  simp only [Character.receiveDamage]
  split <;> exact max_lt ht (by omega)

theorem attack_floor (a t : Character) :
    HpFloorKept a (a.attack t).1 ∧ HpFloorKept t (a.attack t).2 := by
  by_cases ha : 0 < a.hp_
  · rw [attack_alive a t ha]
    exact ⟨fun h => h, fun _ => le_max_left _ _⟩
  · rw [attack_dead a t (by omega)]
    exact ⟨fun h => h, fun h => h⟩

theorem decays_refl (c : Character) : Decays c c := ⟨le_refl _, rfl⟩

theorem decays_trans (a b c : Character) (h1 : Decays a b) (h2 : Decays b c) : Decays a c :=
  ⟨le_trans h2.1 h1.1, h2.2.trans h1.2⟩

theorem positiveHp_le_of_decays {l l' : List Character} (h : Pointwise Decays l l') :
    positiveHp l' ≤ positiveHp l := by
  unfold Pointwise at h
  induction h with
  | nil => exact le_refl _
  | cons hab _ ih =>
    have := hab.1
    simp only [positiveHp, List.map_cons, List.sum_cons] at ih ⊢
    omega

/-! ### When a turn ends early, and when it strikes -/

theorem phaseAux_returned (byHero : Bool) (todo : List Character) :
    ∀ (done targets : List Character),
      (phaseAux byHero done todo targets).returned = true →
      anyAlive (phaseAux byHero done todo targets).targets = false := by
  induction todo with
  | nil => intro done targets h; rw [phaseAux_nil] at h; cases h
  | cons a rest ih =>
    intro done targets h
    by_cases ha : a.isAlive = true
    · cases hf : findTarget targets with
      | none =>
        rw [phaseAux_no_target byHero done rest ha hf]
        exact (findTarget_eq_none targets).1 hf
      | some p =>
        obtain ⟨j, t⟩ := p
        rw [phaseAux_strike byHero done rest ha hf] at h ⊢
        exact ih _ _ h
    · have ha0 : a.isAlive = false := by simpa using ha
      rw [phaseAux_dead byHero done rest targets ha0] at h ⊢
      exact ih _ _ h

theorem phaseAux_no_alive_target (byHero : Bool) (todo : List Character) :
    ∀ (done targets : List Character), anyAlive targets = false →
      (∃ a ∈ todo, 0 < a.hp_) → (phaseAux byHero done todo targets).returned = true := by
  induction todo with
  | nil => intro done targets _ h; obtain ⟨a, ha, _⟩ := h; cases ha
  | cons a rest ih =>
    intro done targets hts hex
    by_cases ha : a.isAlive = true
    · rw [phaseAux_no_target byHero done rest ha ((findTarget_eq_none targets).2 hts)]
    · have ha0 : a.isAlive = false := by simpa using ha
      rw [phaseAux_dead byHero done rest targets ha0]
      apply ih _ _ hts
      obtain ⟨b, hb, hbpos⟩ := hex
      rcases List.mem_cons.1 hb with rfl | hb
      · exact absurd ((isAlive_iff _).2 hbpos) ha
      · exact ⟨b, hb, hbpos⟩

theorem phaseAux_no_alive_attacker (byHero : Bool) (todo : List Character) :
    ∀ (done targets : List Character), (∀ a ∈ todo, a.hp_ ≤ 0) →
      phaseAux byHero done todo targets =
        { attackers := done ++ todo, targets := targets, returned := false, strikes := [] } := by
  induction todo with
  | nil => intro done targets _; simp [phaseAux_nil]
  | cons a rest ih =>
    intro done targets h
    have ha0 : a.isAlive = false := (isAlive_false_iff a).2 (h a (List.mem_cons_self _ _))
    rw [phaseAux_dead byHero done rest targets ha0,
      ih _ _ (fun b hb => h b (List.mem_cons_of_mem _ hb))]
    simp

/-- A turn that visits an alive attacker with positive `ap_` and does not end
early lowers the sum of the positive `hp_` of the opposing roster. -/
theorem phaseAux_positiveHp_lt (byHero : Bool) (todo : List Character) :
    ∀ (done targets : List Character),
      (∀ c ∈ done, 0 ≤ c.ap_) → (∀ c ∈ todo, 0 < c.ap_) → (∀ c ∈ targets, 0 ≤ c.ap_) →
      (phaseAux byHero done todo targets).returned = false →
      (∃ a ∈ todo, 0 < a.hp_) →
      positiveHp (phaseAux byHero done todo targets).targets < positiveHp targets := by
  induction todo with
  | nil => intro done targets _ _ _ _ h; obtain ⟨a, ha, _⟩ := h; cases ha
  | cons a rest ih =>
    intro done targets hd htodo hts hret hex
    have hrest : ∀ c ∈ rest, 0 < c.ap_ := fun c hc => htodo c (List.mem_cons_of_mem _ hc)
    have hapa : 0 < a.ap_ := htodo a (List.mem_cons_self _ _)
    by_cases ha : a.isAlive = true
    · cases hf : findTarget targets with
      | none =>
        rw [phaseAux_no_target byHero done rest ha hf] at hret
        cases hret
      | some p =>
        obtain ⟨j, t⟩ := p
        obtain ⟨htmem, htpos, _⟩ := findTarget_some_spec hf
        have hapos := (isAlive_iff a).1 ha
        obtain ⟨hRa, hRt⟩ := attack_decays a t (le_of_lt hapa) (hts t htmem) hapos htpos
        have hlt := attack_strict a t hapa hapos htpos
        have hsum := positiveHp_set_target hf (a.attack t).2
        have hset : Pointwise Decays targets (targets.set j (a.attack t).2) :=
          pointwise_set_target decays_refl hf hRt
        have hP : ∀ x y : Character, 0 ≤ x.ap_ → Decays x y → 0 ≤ y.ap_ :=
          fun x y hx hxy => by rw [hxy.2]; exact hx
        have hd1 : ∀ c ∈ done ++ [(a.attack t).1], 0 ≤ c.ap_ := by
          intro c hc
          rcases List.mem_append.1 hc with hc | hc
          · exact hd c hc
          · rw [List.mem_singleton.1 hc]
            exact hP _ _ (le_of_lt hapa) hRa
        have hmono := (phaseAux_pointwise decays_refl decays_trans hP
          (fun x y hx hy hxp hyp => attack_decays x y hx hy hxp hyp) byHero rest
          (done ++ [(a.attack t).1]) (targets.set j (a.attack t).2) hd1
          (fun c hc => le_of_lt (hrest c hc)) (pointwise_all hP hset hts)).2.1
        have hle := positiveHp_le_of_decays hmono
        rw [phaseAux_strike byHero done rest ha hf]
        simp only []
        omega
    · have ha0 : a.isAlive = false := by simpa using ha
      rw [phaseAux_dead byHero done rest targets ha0] at hret ⊢
      have hd1 : ∀ c ∈ done ++ [a], 0 ≤ c.ap_ := by
        intro c hc
        rcases List.mem_append.1 hc with hc | hc
        · exact hd c hc
        · rw [List.mem_singleton.1 hc]
          exact le_of_lt hapa
      apply ih _ _ hd1 hrest hts hret
      obtain ⟨b, hb, hbpos⟩ := hex
      rcases List.mem_cons.1 hb with rfl | hb
      · exact absurd ((isAlive_iff _).2 hbpos) ha
      · exact ⟨b, hb, hbpos⟩

/-! ### How the loop is left -/

theorem round_continue_spec (gm : GameManager) (hx : gm.round.exited = false) :
    (phase true gm.heroes_ gm.enemies_).returned = false ∧
    anyAlive (phase true gm.heroes_ gm.enemies_).targets = true ∧
    (phase false (phase true gm.heroes_ gm.enemies_).targets
      (phase true gm.heroes_ gm.enemies_).attackers).returned = false ∧
    anyAlive (phase false (phase true gm.heroes_ gm.enemies_).targets
      (phase true gm.heroes_ gm.enemies_).attackers).targets = true ∧
    gm.round.state =
      { heroes_ := (phase false (phase true gm.heroes_ gm.enemies_).targets
          (phase true gm.heroes_ gm.enemies_).attackers).targets,
        enemies_ := (phase false (phase true gm.heroes_ gm.enemies_).targets
          (phase true gm.heroes_ gm.enemies_).attackers).attackers } := by
  rw [round_eq] at hx ⊢
  split at hx
  · cases hx
  · rename_i hc
    rw [if_neg hc]
    simp only [not_or, Bool.not_eq_true, Bool.not_eq_false] at hc
    simp only [Bool.or_eq_false_iff, Bool.not_eq_false'] at hx
    exact ⟨hc.1, hc.2, hx.1, hx.2, rfl⟩

theorem round_exited_spec (gm : GameManager) (hx : gm.round.exited = true) :
    anyAlive gm.round.state.heroes_ = false ∨ anyAlive gm.round.state.enemies_ = false := by
  rw [round_eq] at hx ⊢
  split
  · rename_i hc
    right
    rcases hc with hc | hc
    · exact phaseAux_returned true gm.heroes_ [] gm.enemies_ hc
    · exact hc
  · rename_i hc
    rw [if_neg hc] at hx
    left
    simp only [Bool.or_eq_true, Bool.not_eq_true'] at hx
    rcases hx with hx | hx
    · exact phaseAux_returned false _ [] _ hx
    · exact hx

theorem runBattle_finished_spec (n : Nat) :
    ∀ gm : GameManager, (GameManager.runBattle n gm).finished = true →
      anyAlive (GameManager.runBattle n gm).state.heroes_ = false ∨
      anyAlive (GameManager.runBattle n gm).state.enemies_ = false := by
  induction n with
  | zero => intro gm h; rw [runBattle_zero] at h; cases h
  | succ n ih =>
    intro gm h
    by_cases hx : gm.round.exited = true
    · rw [runBattle_succ_exited n gm hx]
      exact round_exited_spec gm hx
    · have hx0 : gm.round.exited = false := by simpa using hx
      rw [runBattle_succ_continue n gm hx0] at h ⊢
      exact ih _ h

/-- Once the loop has been left within `n` iterations, a larger bound gives
the same result. -/
theorem runBattle_finished_mono (n : Nat) :
    ∀ (gm : GameManager) (m : Nat), (GameManager.runBattle n gm).finished = true → n ≤ m →
      GameManager.runBattle m gm = GameManager.runBattle n gm := by
  induction n with
  | zero => intro gm m h; rw [runBattle_zero] at h; cases h
  | succ n ih =>
    intro gm m h hm
    obtain ⟨k, rfl⟩ : ∃ k, m = k + 1 := ⟨m - 1, by omega⟩
    by_cases hx : gm.round.exited = true
    · rw [runBattle_succ_exited n gm hx, runBattle_succ_exited k gm hx]
    · have hx0 : gm.round.exited = false := by simpa using hx
      rw [runBattle_succ_continue n gm hx0] at h ⊢
      rw [runBattle_succ_continue k gm hx0, ih gm.round.state k h (by omega)]

/-! ### Progress of one iteration -/

theorem ap_nonneg_kept (x y : Character) (hx : 0 ≤ x.ap_) (hxy : Decays x y) : 0 ≤ y.ap_ := by
  rw [hxy.2]; exact hx

theorem ap_pos_kept (x y : Character) (hx : 0 < x.ap_) (hxy : Decays x y) : 0 < y.ap_ := by
  rw [hxy.2]; exact hx

theorem allCombatants_imp {P Q : Character → Prop} (h : ∀ c, P c → Q c) {gm : GameManager}
    (hg : AllCombatants P gm) : AllCombatants Q gm :=
  ⟨fun c hc => h c (hg.1 c hc), fun c hc => h c (hg.2 c hc)⟩

theorem round_decays (gm : GameManager) (hg : AllCombatants (fun c => 0 ≤ c.ap_) gm) :
    StatePointwise Decays gm gm.round.state :=
  (round_pointwise decays_refl decays_trans ap_nonneg_kept
    (fun x y hx hy hxp hyp => attack_decays x y hx hy hxp hyp) gm hg).1

/-- An iteration that does not leave the loop lowers the sum of the positive
`hp_` values. -/
theorem round_progress (gm : GameManager) (hg : AllCombatants (fun c => 0 < c.ap_) gm)
    (hx : gm.round.exited = false) :
    totalPositiveHp gm.round.state < totalPositiveHp gm := by
  obtain ⟨h1, h2, h3, h4, h5⟩ := round_continue_spec gm hx
  have hg0 : AllCombatants (fun c => 0 ≤ c.ap_) gm := allCombatants_imp (fun _ h => le_of_lt h) hg
  obtain ⟨p1, p2, _⟩ := phase_pointwise decays_refl decays_trans ap_nonneg_kept
    (fun x y hx hy hxp hyp => attack_decays x y hx hy hxp hyp) true gm.heroes_ gm.enemies_
    hg0.1 hg0.2
  obtain ⟨q1, q2, _⟩ := phase_pointwise decays_refl decays_trans ap_nonneg_kept
    (fun x y hx hy hxp hyp => attack_decays x y hx hy hxp hyp) false
    (phase true gm.heroes_ gm.enemies_).targets (phase true gm.heroes_ gm.enemies_).attackers
    (pointwise_all ap_nonneg_kept p2 hg0.2) (pointwise_all ap_nonneg_kept p1 hg0.1)
  have l1 := positiveHp_le_of_decays p1
  have l2 := positiveHp_le_of_decays p2
  have l3 := positiveHp_le_of_decays q1
  have l4 := positiveHp_le_of_decays q2
  by_cases hal : ∃ a ∈ gm.heroes_, 0 < a.hp_
  · have hlt := phaseAux_positiveHp_lt true gm.heroes_ [] gm.enemies_
      (fun c hc => by cases hc) hg.1 hg0.2 h1 hal
    rw [h5]
    simp only [totalPositiveHp]
    have hph : phase true gm.heroes_ gm.enemies_ = phaseAux true [] gm.heroes_ gm.enemies_ := rfl
    rw [← hph] at hlt
    omega
  · exfalso
    have hdead : ∀ a ∈ gm.heroes_, a.hp_ ≤ 0 := by
      intro a ha
      by_contra hc
      exact hal ⟨a, ha, by omega⟩
    have hph : phase true gm.heroes_ gm.enemies_ =
        { attackers := gm.heroes_, targets := gm.enemies_, returned := false, strikes := [] } := by
      have := phaseAux_no_alive_attacker true gm.heroes_ [] gm.enemies_ hdead
      simpa [phase] using this
    rw [hph] at h2 h3
    simp only [] at h2 h3
    have hnone : anyAlive gm.heroes_ = false := by
      cases hb : anyAlive gm.heroes_ with
      | false => rfl
      | true => exact absurd ((anyAlive_iff gm.heroes_).1 hb) hal
    have hret := phaseAux_no_alive_target false gm.enemies_ [] gm.heroes_ hnone
      ((anyAlive_iff gm.enemies_).1 h2)
    have hph2 : phase false gm.enemies_ gm.heroes_ = phaseAux false [] gm.enemies_ gm.heroes_ :=
      rfl
    rw [hph2, hret] at h3
    cases h3

theorem runBattle_finishes (n : Nat) :
    ∀ gm : GameManager, AllCombatants (fun c => 0 < c.ap_) gm → totalPositiveHp gm < n →
      (GameManager.runBattle n gm).finished = true := by
  induction n with
  | zero => intro gm _ h; omega
  | succ n ih =>
    intro gm hg hn
    by_cases hx : gm.round.exited = true
    · rw [runBattle_succ_exited n gm hx]
    · have hx0 : gm.round.exited = false := by simpa using hx
      rw [runBattle_succ_continue n gm hx0]
      have hlt := round_progress gm hg hx0
      have hdec := round_decays gm (allCombatants_imp (fun _ h => le_of_lt h) hg)
      exact ih gm.round.state (statePointwise_all ap_pos_kept hdec hg) (by omega)

/-! ### Claims on the combatant model -/

/-- C1: `receiveDamage` clamps at zero.  For every combatant and every damage
`d ≥ 0`, after `receiveDamage d` the `hp_` is `max 0 (hp_ - d)`, hence not
negative, and the type, name, `ap_` and `attackCount_` are the old ones. -/
theorem receiveDamage_clamps (c : Character) (d : Int) (_hd : 0 ≤ d) :
    (c.receiveDamage d).hp_ = max 0 (c.hp_ - d) ∧
    0 ≤ (c.receiveDamage d).hp_ ∧
    (c.receiveDamage d).name_ = c.name_ ∧
    (c.receiveDamage d).ap_ = c.ap_ ∧
    (c.receiveDamage d).attackCount_ = c.attackCount_ ∧
    (c.receiveDamage d).type = c.type := by
  refine ⟨rfl, ?_, rfl, rfl, rfl, rfl⟩
  simp [Character.receiveDamage]

theorem receiveDamage_clamps_witness :
    ((Character.mk0 CharType.Enemy "Orc" 7 5).receiveDamage 10).hp_ = max 0 (7 - 10) ∧
    0 ≤ ((Character.mk0 CharType.Enemy "Orc" 7 5).receiveDamage 10).hp_ ∧
    ((Character.mk0 CharType.Enemy "Orc" 7 5).receiveDamage 10).name_ = "Orc" ∧
    ((Character.mk0 CharType.Enemy "Orc" 7 5).receiveDamage 10).ap_ = 5 ∧
    ((Character.mk0 CharType.Enemy "Orc" 7 5).receiveDamage 10).attackCount_ = 0 ∧
    ((Character.mk0 CharType.Enemy "Orc" 7 5).receiveDamage 10).type = CharType.Enemy :=
  receiveDamage_clamps (Character.mk0 CharType.Enemy "Orc" 7 5) 10 (by decide)

/-- C2 fails on the code: with `hp_ = 10`, `receiveDamage (-5)` leaves
`hp_ = 15`, not 10. -/
theorem negative_damage_heals :
    (-5 : Int) < 0 ∧
    ((Character.mk0 CharType.Enemy "Orc" 10 5).receiveDamage (-5)).hp_ = 15 ∧
    ((Character.mk0 CharType.Enemy "Orc" 10 5).receiveDamage (-5)).hp_ ≠
      (Character.mk0 CharType.Enemy "Orc" 10 5).hp_ := by
  decide

/-- C4: the class-dispatched special damage.  For every `ap_` and every target
it is `3 * ap_` for an Archer, `ap_ + 15` for a Warrior, `2 * ap_` for an Enemy
and `2 * ap_ + q` for a Mage, where `q` is the target's current `hp_` divided by
2 with truncation toward zero.  In scenario S2 the run ends in the third round
with Goblin at 0 and Thor at 42. -/
theorem specialAttackDamage_table (name : String) (hp ap count : Int) (target : Character) :
    Character.specialAttackDamage
      { type := CharType.Archer, name_ := name, hp_ := hp, ap_ := ap, attackCount_ := count }
      target = 3 * ap ∧
    Character.specialAttackDamage
      { type := CharType.Warrior, name_ := name, hp_ := hp, ap_ := ap, attackCount_ := count }
      target = ap + 15 ∧
    Character.specialAttackDamage
      { type := CharType.Enemy, name_ := name, hp_ := hp, ap_ := ap, attackCount_ := count }
      target = 2 * ap ∧
    Character.specialAttackDamage
      { type := CharType.Mage, name_ := name, hp_ := hp, ap_ := ap, attackCount_ := count }
      target =
        2 * ap + (if 0 ≤ target.hp_ then target.hp_ / 2 else -((-target.hp_) / 2)) ∧
    ((GameManager.runBattle 3 scenarioS2).finished = true ∧
      (GameManager.runBattle 3 scenarioS2).state.heroes_.map Character.hp_ = [42] ∧
      (GameManager.runBattle 3 scenarioS2).state.enemies_.map Character.hp_ = [0]) := by
  refine ⟨rfl, rfl, rfl, ?_, by decide⟩
  show 2 * ap + target.hp_.tdiv 2 = _
  congr 1
  by_cases h : 0 ≤ target.hp_
  · rw [if_pos h, Int.tdiv_eq_ediv h (by decide)]
  · rw [if_neg h]
    have hneg : target.hp_ = -(-target.hp_) := by omega
    have h2 : (0 : Int) ≤ -target.hp_ := by omega
    calc target.hp_.tdiv 2 = (-(-target.hp_)).tdiv 2 := by rw [← hneg]
      _ = -((-target.hp_).tdiv 2) := Int.neg_tdiv _ _
      _ = -((-target.hp_) / 2) := by rw [Int.tdiv_eq_ediv h2 (by decide)]

/-- C5: `attack` by a defeated combatant is a no-op.  For every attacker with
`hp_ ≤ 0` and every target, the call leaves every field of the attacker
(`attackCount_` included) and of the target as it was. -/
theorem attack_defeated_noop (a t : Character) (h : a.hp_ ≤ 0) :
    a.isAlive = false ∧ a.attack t = (a, t) ∧
    (a.attack t).1.attackCount_ = a.attackCount_ ∧ (a.attack t).2.hp_ = t.hp_ := by
  have h1 := attack_dead a t h
  exact ⟨(isAlive_false_iff a).2 h, h1, by rw [h1], by rw [h1]⟩

theorem attack_defeated_noop_witness :
    (Character.mk0 CharType.Warrior "Fallen" 0 9).hp_ ≤ 0 ∧
    (Character.mk0 CharType.Warrior "Fallen" 0 9).isAlive = false ∧
    (Character.mk0 CharType.Warrior "Fallen" 0 9).attack
        (Character.mk0 CharType.Enemy "Orc" 20 3) =
      (Character.mk0 CharType.Warrior "Fallen" 0 9, Character.mk0 CharType.Enemy "Orc" 20 3) ∧
    ((Character.mk0 CharType.Warrior "Fallen" 0 9).attack
        (Character.mk0 CharType.Enemy "Orc" 20 3)).1.attackCount_ = 0 ∧
    ((Character.mk0 CharType.Warrior "Fallen" 0 9).attack
        (Character.mk0 CharType.Enemy "Orc" 20 3)).2.hp_ = 20 :=
  ⟨by decide,
    attack_defeated_noop (Character.mk0 CharType.Warrior "Fallen" 0 9)
      (Character.mk0 CharType.Enemy "Orc" 20 3) (by decide)⟩

/-! ### The verdict -/

/-- C8: the verdict is decided only by which sides have an alive combatant.
`determineOutcome` is "Your party has won the battle!" iff some hero is alive
and no enemy is, "The enemies have won the battle!" iff no hero is alive and
some enemy is, "The battle ended in a draw!" iff neither side has an alive
combatant, and the empty text iff both sides have one. -/
theorem determineOutcome_iff (gm : GameManager) :
    (gm.determineOutcome = "Your party has won the battle!" ↔ HeroesWon gm) ∧
    (gm.determineOutcome = "The enemies have won the battle!" ↔ EnemiesWon gm) ∧
    (gm.determineOutcome = "The battle ended in a draw!" ↔ Draw gm) ∧
    (gm.determineOutcome = "" ↔ (SomeAlive gm.heroes_ ∧ SomeAlive gm.enemies_)) := by
  unfold HeroesWon EnemiesWon Draw SomeAlive
  rw [← anyAlive_iff gm.heroes_, ← anyAlive_iff gm.enemies_]
  unfold GameManager.determineOutcome
  cases anyAlive gm.heroes_ <;> cases anyAlive gm.enemies_ <;> decide

/-! ### Claims on the battle engine -/

/-- C6: termination of `runBattle`.  For non-empty rosters in which every
combatant has `ap_ > 0` and `attackCount_ = 0`, the loop is left within
`1 + S` iterations, where `S` is the sum of the positive initial `hp_` values of
all combatants; any larger bound gives the same result. -/
theorem runBattle_terminates (gm : GameManager)
    (_hheroes : gm.heroes_ ≠ []) (_henemies : gm.enemies_ ≠ [])
    (hall : ∀ c ∈ gm.heroes_ ++ gm.enemies_, 0 < c.ap_ ∧ c.attackCount_ = 0) :
    ∃ n, n ≤ 1 + totalPositiveHp gm ∧
      (GameManager.runBattle n gm).finished = true ∧
      ∀ m, n ≤ m → GameManager.runBattle m gm = GameManager.runBattle n gm := by
  have hg : AllCombatants (fun c => 0 < c.ap_) gm :=
    ⟨fun c hc => (hall c (List.mem_append_left _ hc)).1,
      fun c hc => (hall c (List.mem_append_right _ hc)).1⟩
  have hfin := runBattle_finishes (1 + totalPositiveHp gm) gm hg (by omega)
  exact ⟨1 + totalPositiveHp gm, le_refl _, hfin,
    fun m hm => runBattle_finished_mono _ gm m hfin hm⟩

theorem runBattle_terminates_witness :
    scenarioS2.heroes_ ≠ [] ∧ scenarioS2.enemies_ ≠ [] ∧
    (∀ c ∈ scenarioS2.heroes_ ++ scenarioS2.enemies_, 0 < c.ap_ ∧ c.attackCount_ = 0) ∧
    ∃ n, n ≤ 1 + totalPositiveHp scenarioS2 ∧
      (GameManager.runBattle n scenarioS2).finished = true ∧
      ∀ m, n ≤ m → GameManager.runBattle m scenarioS2 = GameManager.runBattle n scenarioS2 :=
  ⟨by decide, by decide, by decide,
    runBattle_terminates scenarioS2 (by decide) (by decide) (by decide)⟩

/-- C7: verdict totality.  When `runBattle` has returned, exactly one of the
three verdict conditions holds of the final state, or none does and both sides
have an alive combatant; and both sides have an alive combatant in the final
state only if one side started empty.  In fact the final state never has an
alive combatant on both sides. -/
theorem verdict_totality (gm : GameManager) (n : Nat)
    (hfin : (GameManager.runBattle n gm).finished = true) :
    ((HeroesWon (GameManager.runBattle n gm).state ∧
        ¬ EnemiesWon (GameManager.runBattle n gm).state ∧
        ¬ Draw (GameManager.runBattle n gm).state) ∨
      (¬ HeroesWon (GameManager.runBattle n gm).state ∧
        EnemiesWon (GameManager.runBattle n gm).state ∧
        ¬ Draw (GameManager.runBattle n gm).state) ∨
      (¬ HeroesWon (GameManager.runBattle n gm).state ∧
        ¬ EnemiesWon (GameManager.runBattle n gm).state ∧
        Draw (GameManager.runBattle n gm).state) ∨
      (¬ HeroesWon (GameManager.runBattle n gm).state ∧
        ¬ EnemiesWon (GameManager.runBattle n gm).state ∧
        ¬ Draw (GameManager.runBattle n gm).state ∧
        SomeAlive (GameManager.runBattle n gm).state.heroes_ ∧
        SomeAlive (GameManager.runBattle n gm).state.enemies_)) ∧
    ((SomeAlive (GameManager.runBattle n gm).state.heroes_ ∧
        SomeAlive (GameManager.runBattle n gm).state.enemies_) →
      (gm.heroes_ = [] ∨ gm.enemies_ = [])) ∧
    ¬ (SomeAlive (GameManager.runBattle n gm).state.heroes_ ∧
        SomeAlive (GameManager.runBattle n gm).state.enemies_) := by
  have hnot : ¬ (SomeAlive (GameManager.runBattle n gm).state.heroes_ ∧
      SomeAlive (GameManager.runBattle n gm).state.enemies_) := by
    rintro ⟨hh, he⟩
    have h1 := (anyAlive_iff _).2 hh
    have h2 := (anyAlive_iff _).2 he
    rcases runBattle_finished_spec n gm hfin with h | h
    · rw [h] at h1; cases h1
    · rw [h] at h2; cases h2
  refine ⟨?_, fun h => absurd h hnot, hnot⟩
  unfold HeroesWon EnemiesWon Draw
  by_cases hh : SomeAlive (GameManager.runBattle n gm).state.heroes_ <;>
    by_cases he : SomeAlive (GameManager.runBattle n gm).state.enemies_ <;>
    simp [hh, he]

theorem verdict_totality_witness :
    (GameManager.runBattle 3 scenarioS2).finished = true ∧
    ((SomeAlive (GameManager.runBattle 3 scenarioS2).state.heroes_ ∧
        SomeAlive (GameManager.runBattle 3 scenarioS2).state.enemies_) →
      (scenarioS2.heroes_ = [] ∨ scenarioS2.enemies_ = [])) ∧
    ¬ (SomeAlive (GameManager.runBattle 3 scenarioS2).state.heroes_ ∧
        SomeAlive (GameManager.runBattle 3 scenarioS2).state.enemies_) :=
  ⟨by decide, (verdict_totality scenarioS2 3 (by decide)).2⟩

/-- C9 fails on the code: the constructor stores a negative `hp` as given, so
right after construction `hp_ = -5 < 0`; such a combatant is never a target and
still has `hp_ = -5` when `runBattle` has returned. -/
theorem negative_initial_hp_stays_negative :
    createCharacter "Archer" "A" (-5) 1 =
      Except.ok (Character.mk0 CharType.Archer "A" (-5) 1) ∧
    (Character.mk0 CharType.Archer "A" (-5) 1).hp_ < 0 ∧
    (GameManager.runBattle 1 scenarioNegativeHp).finished = true ∧
    (GameManager.runBattle 1 scenarioNegativeHp).state.heroes_.map Character.hp_ = [-5] := by
  refine ⟨rfl, by decide, by decide, by decide⟩

theorem createCharacter_eq (type name : String) (hp ap : Int) :
    createCharacter type name hp ap =
      match knownType type with
      | some t =>
        Except.ok { type := t, name_ := name, hp_ := hp, ap_ := ap, attackCount_ := 0 }
      | none => Except.error ("Unknown character type: " ++ type) := by
  unfold createCharacter knownType
  by_cases h1 : type = "Archer"
  · simp [h1, Character.mk0]
  · by_cases h2 : type = "Warrior"
    · simp [h2, Character.mk0]
    · by_cases h3 : type = "Mage"
      · simp [h3, Character.mk0]
      · by_cases h4 : type = "Enemy"
        · simp [h4, Character.mk0]
        · simp [h1, h2, h3, h4]

theorem parsedRecords_cons_empty (extract : Extraction) (rest : List String) :
    parsedRecords extract ("" :: rest) = parsedRecords extract rest := by
  simp [parsedRecords]

theorem parsedRecords_cons_some (extract : Extraction) {line : String} (rest : List String)
    {r : String × String × Int × Int} (hne : line ≠ "") (hr : extract line = some r) :
    parsedRecords extract (line :: rest) = r :: parsedRecords extract rest := by
  simp [parsedRecords, hne, hr]

theorem loadLines_cons_empty (extract : Extraction) (rest : List String) (gm : GameManager) :
    GameManager.loadLines extract ("" :: rest) gm = GameManager.loadLines extract rest gm := by
  simp [GameManager.loadLines]

theorem loadLines_cons_unknown (extract : Extraction) {line : String} (rest : List String)
    (gm : GameManager) {type name : String} {hp ap : Int} (hne : line ≠ "")
    (hr : extract line = some (type, name, hp, ap)) (hk : knownType type = none) :
    GameManager.loadLines extract (line :: rest) gm =
      Except.error ("Unknown character type: " ++ type) := by
  simp [GameManager.loadLines, hne, hr, createCharacter_eq, hk]

theorem loadLines_cons_enemy (extract : Extraction) {line : String} (rest : List String)
    (gm : GameManager) {type name : String} {hp ap : Int} {t : CharType} (hne : line ≠ "")
    (hr : extract line = some (type, name, hp, ap)) (hk : knownType type = some t)
    (he : type = "Enemy") :
    GameManager.loadLines extract (line :: rest) gm =
      GameManager.loadLines extract rest
        { gm with enemies_ := gm.enemies_ ++
            [{ type := t, name_ := name, hp_ := hp, ap_ := ap, attackCount_ := 0 }] } := by
  simp only [GameManager.loadLines, hr, createCharacter_eq, hk]
  simp [hne, he]

theorem loadLines_cons_hero (extract : Extraction) {line : String} (rest : List String)
    (gm : GameManager) {type name : String} {hp ap : Int} {t : CharType} (hne : line ≠ "")
    (hr : extract line = some (type, name, hp, ap)) (hk : knownType type = some t)
    (he : type ≠ "Enemy") :
    GameManager.loadLines extract (line :: rest) gm =
      GameManager.loadLines extract rest
        { gm with heroes_ := gm.heroes_ ++
            [{ type := t, name_ := name, hp_ := hp, ap_ := ap, attackCount_ := 0 }] } := by
  simp only [GameManager.loadLines, hr, createCharacter_eq, hk]
  simp [hne, he]

/-- The loop of the loader against the records of the file: it fails at the first
record of unknown class, and otherwise appends the non-Enemy records to the
heroes and the Enemy records to the enemies, in file order. -/
theorem loadLines_spec (extract : Extraction) (lines : List String) :
    (∀ l ∈ lines, l ≠ "" → (extract l).isSome = true) →
    ∀ gm : GameManager,
      GameManager.loadLines extract lines gm =
        match firstUnknown (parsedRecords extract lines) with
        | some r => Except.error ("Unknown character type: " ++ r.1)
        | none =>
          Except.ok
            { heroes_ := gm.heroes_ ++
                ((parsedRecords extract lines).filter (fun r => r.1 ≠ "Enemy")).filterMap
                  recordCharacter,
              enemies_ := gm.enemies_ ++
                ((parsedRecords extract lines).filter (fun r => r.1 = "Enemy")).filterMap
                  recordCharacter } := by
  induction lines with
  | nil =>
    intro _ gm
    simp [GameManager.loadLines, parsedRecords, firstUnknown]
  | cons line rest ih =>
    intro hparse gm
    have hrest : ∀ l ∈ rest, l ≠ "" → (extract l).isSome = true :=
      fun l hl => hparse l (List.mem_cons_of_mem _ hl)
    by_cases hline : line = ""
    · subst hline
      rw [parsedRecords_cons_empty, loadLines_cons_empty]
      exact ih hrest gm
    · have hsome := hparse line (List.mem_cons_self _ _) hline
      obtain ⟨r, hr⟩ := Option.isSome_iff_exists.1 hsome
      obtain ⟨type, name, hp, ap⟩ := r
      rw [parsedRecords_cons_some extract rest hline hr]
      cases hk : knownType type with
      | none =>
        rw [loadLines_cons_unknown extract rest gm hline hr hk]
        simp [firstUnknown, hk]
      | some t =>
        have hfu : firstUnknown ((type, name, hp, ap) :: parsedRecords extract rest) =
            firstUnknown (parsedRecords extract rest) := by
          simp [firstUnknown, hk]
        rw [hfu]
        by_cases he : type = "Enemy"
        · rw [loadLines_cons_enemy extract rest gm hline hr hk he, ih hrest]
          subst he
          simp [List.filter_cons, recordCharacter, hk]
        · rw [loadLines_cons_hero extract rest gm hline hr hk he, ih hrest]
          simp [List.filter_cons, he, recordCharacter, hk]

/-! ### The reporter -/

theorem printCharacter_eq (cout : String) (c : Character) :
    GameManager.printCharacter cout c = cout ++ (reportLine c ++ "\n") := by
  unfold GameManager.printCharacter reportLine Character.getName Character.getHP
  by_cases h : 0 < c.hp_
  · have ha : c.isAlive = true := (isAlive_iff c).2 h
    simp [h, ha, String.append_assoc]
  · have ha : c.isAlive = false := (isAlive_false_iff c).2 (by omega)
    simp [h, ha, String.append_assoc]

theorem unlines_append (xs ys : List String) : unlines (xs ++ ys) = unlines xs ++ unlines ys := by
  induction xs with
  | nil => simp [unlines]
  | cons x xs ih => simp [unlines, ih, String.append_assoc]

theorem foldl_printCharacter (cs : List Character) :
    ∀ cout : String, cs.foldl GameManager.printCharacter cout =
      cout ++ unlines (cs.map reportLine) := by
  induction cs with
  | nil => intro cout; simp [unlines]
  | cons c cs ih =>
    intro cout
    simp [List.foldl_cons, ih, printCharacter_eq, unlines, String.append_assoc]

/-! ### Reading the record of strikes -/

theorem acting_mkState (byHero : Bool) (as ts : List Character) :
    acting byHero (mkState byHero as ts) = as := by
  cases byHero <;> rfl

theorem opposing_mkState (byHero : Bool) (as ts : List Character) :
    opposing byHero (mkState byHero as ts) = ts := by
  cases byHero <;> rfl

theorem mkState_acting_opposing (byHero : Bool) (gm : GameManager) :
    mkState byHero (acting byHero gm) (opposing byHero gm) = gm := by
  cases byHero <;> rfl

theorem findTarget_first {ts : List Character} {j : Nat} {t : Character}
    (h : findTarget ts = some (j, t)) :
    ∀ (i : Nat) (c : Character), i < j → ts[i]? = some c → c.hp_ ≤ 0 := by
  induction ts generalizing j with
  | nil => simp [findTarget] at h
  | cons c0 cs ih =>
    rcases findTarget_cons_some h with ⟨_, rfl, rfl⟩ | ⟨hc, k, rfl, hk⟩
    · intro i c hi; omega
    · intro i c hi hget
      cases i with
      | zero =>
        simp at hget
        subst hget
        exact (isAlive_false_iff _).1 hc
      | succ i =>
        simp at hget
        exact ih hk i c (by omega) hget

theorem getElem?_append_length (done : List Character) (a : Character) (rest : List Character) :
    (done ++ a :: rest)[done.length]? = some a := by
  rw [List.getElem?_append_right (le_refl _)]
  simp

theorem set_append_length (done : List Character) (a a' : Character) (rest : List Character) :
    (done ++ a :: rest).set done.length a' = done ++ a' :: rest := by
  induction done with
  | nil => rfl
  | cons d ds ih => simp [ih]

theorem chained_append {g1 g2 g3 : GameManager} {l1 l2 : List Strike}
    (h1 : Chained g1 l1 g2) (h2 : Chained g2 l2 g3) : Chained g1 (l1 ++ l2) g3 := by
  induction l1 generalizing g1 with
  | nil =>
    simp only [Chained] at h1
    subst h1
    simpa using h2
  | cons s rest ih =>
    simp only [Chained, List.cons_append] at h1 ⊢
    exact ⟨h1.1, ih h1.2⟩

/-- Every strike recorded in a turn is sound, belongs to the acting side of the
turn, and is made by an attacker not yet visited. -/
theorem phaseAux_sound (byHero : Bool) (todo : List Character) :
    ∀ (done targets : List Character),
      ∀ s ∈ (phaseAux byHero done todo targets).strikes,
        s.Sound ∧ s.byHero = byHero ∧ done.length ≤ s.attackerIdx := by
  induction todo with
  | nil => intro done targets s hs; rw [phaseAux_nil] at hs; cases hs
  | cons a rest ih =>
    intro done targets s hs
    by_cases ha : a.isAlive = true
    · cases hf : findTarget targets with
      | none =>
        rw [phaseAux_no_target byHero done rest ha hf] at hs
        cases hs
      | some p =>
        obtain ⟨j, t⟩ := p
        rw [phaseAux_strike byHero done rest ha hf] at hs
        rcases List.mem_cons.1 hs with rfl | hs
        · obtain ⟨_, htpos, htget⟩ := findTarget_some_spec hf
          refine ⟨⟨a, t, ?_, ?_, (isAlive_iff a).1 ha, htpos, ?_, ?_, ?_⟩, rfl, le_refl _⟩
          · simp only [acting_mkState]
            exact getElem?_append_length done a rest
          · simp only [opposing_mkState]
            exact htget
          · simp only [opposing_mkState]
            exact findTarget_first hf
          · simp only [acting_mkState]
            exact (set_append_length done a _ rest).symm
          · simp only [opposing_mkState]
        · obtain ⟨h1, h2, h3⟩ := ih _ _ s hs
          refine ⟨h1, h2, ?_⟩
          simp only [List.length_append, List.length_singleton] at h3
          omega
    · have ha0 : a.isAlive = false := by simpa using ha
      rw [phaseAux_dead byHero done rest targets ha0] at hs
      obtain ⟨h1, h2, h3⟩ := ih _ _ s hs
      refine ⟨h1, h2, ?_⟩
      simp only [List.length_append, List.length_singleton] at h3
      omega

/-- The strikes of a turn lead from the state at its start to the state at its
end. -/
theorem phaseAux_chained (byHero : Bool) (todo : List Character) :
    ∀ (done targets : List Character),
      Chained (mkState byHero (done ++ todo) targets)
        (phaseAux byHero done todo targets).strikes
        (mkState byHero (phaseAux byHero done todo targets).attackers
          (phaseAux byHero done todo targets).targets) := by
  induction todo with
  | nil => intro done targets; rw [phaseAux_nil]; simp [Chained]
  | cons a rest ih =>
    intro done targets
    by_cases ha : a.isAlive = true
    · cases hf : findTarget targets with
      | none =>
        rw [phaseAux_no_target byHero done rest ha hf]
        simp [Chained]
      | some p =>
        obtain ⟨j, t⟩ := p
        rw [phaseAux_strike byHero done rest ha hf]
        have := ih (done ++ [(a.attack t).1]) (targets.set j (a.attack t).2)
        simp only [List.append_assoc, List.singleton_append] at this
        exact ⟨rfl, this⟩
    · have ha0 : a.isAlive = false := by simpa using ha
      rw [phaseAux_dead byHero done rest targets ha0]
      have := ih (done ++ [a]) targets
      simp only [List.append_assoc, List.singleton_append] at this
      exact this

/-- The strikes of a turn are made in roster order, at most one per attacker. -/
theorem phaseAux_ordered (byHero : Bool) (todo : List Character) :
    ∀ (done targets : List Character),
      List.Pairwise (fun i j => i < j)
        ((phaseAux byHero done todo targets).strikes.map Strike.attackerIdx) := by
  induction todo with
  | nil => intro done targets; rw [phaseAux_nil]; exact List.Pairwise.nil
  | cons a rest ih =>
    intro done targets
    by_cases ha : a.isAlive = true
    · cases hf : findTarget targets with
      | none =>
        rw [phaseAux_no_target byHero done rest ha hf]
        exact List.Pairwise.nil
      | some p =>
        obtain ⟨j, t⟩ := p
        rw [phaseAux_strike byHero done rest ha hf]
        simp only [List.map_cons]
        refine List.Pairwise.cons ?_ (ih _ _)
        intro k hk
        obtain ⟨s, hs, rfl⟩ := List.mem_map.1 hk
        have := (phaseAux_sound byHero rest _ _ s hs).2.2
        simp only [List.length_append, List.length_singleton] at this
        omega
    · have ha0 : a.isAlive = false := by simpa using ha
      rw [phaseAux_dead byHero done rest targets ha0]
      exact ih _ _

theorem phase_sound (byHero : Bool) (attackers targets : List Character) :
    ∀ s ∈ (phase byHero attackers targets).strikes, s.Sound ∧ s.byHero = byHero :=
  fun s hs => ⟨(phaseAux_sound byHero attackers [] targets s hs).1,
    (phaseAux_sound byHero attackers [] targets s hs).2.1⟩

theorem phase_chained (byHero : Bool) (attackers targets : List Character) :
    Chained (mkState byHero attackers targets) (phase byHero attackers targets).strikes
      (mkState byHero (phase byHero attackers targets).attackers
        (phase byHero attackers targets).targets) := by
  have := phaseAux_chained byHero attackers [] targets
  simpa [phase] using this

theorem round_sound (gm : GameManager) : ∀ s ∈ gm.round.strikes, s.Sound := by
  intro s hs
  rw [round_eq] at hs
  split at hs
  · exact (phase_sound _ _ _ s hs).1
  · rcases List.mem_append.1 hs with hs | hs
    · exact (phase_sound _ _ _ s hs).1
    · exact (phase_sound _ _ _ s hs).1

theorem round_chained (gm : GameManager) : Chained gm gm.round.strikes gm.round.state := by
  have h1 := phase_chained true gm.heroes_ gm.enemies_
  have h2 := phase_chained false (phase true gm.heroes_ gm.enemies_).targets
    (phase true gm.heroes_ gm.enemies_).attackers
  rw [round_eq]
  split
  · exact h1
  · exact chained_append h1 h2

theorem runBattle_sound (n : Nat) :
    ∀ gm : GameManager, ∀ s ∈ (GameManager.runBattle n gm).strikes, s.Sound := by
  induction n with
  | zero => intro gm s hs; rw [runBattle_zero] at hs; cases hs
  | succ n ih =>
    intro gm s hs
    by_cases hx : gm.round.exited = true
    · rw [runBattle_succ_exited n gm hx] at hs
      exact round_sound gm s hs
    · have hx0 : gm.round.exited = false := by simpa using hx
      rw [runBattle_succ_continue n gm hx0] at hs
      rcases List.mem_append.1 hs with hs | hs
      · exact round_sound gm s hs
      · exact ih _ s hs

theorem runBattle_chained (n : Nat) :
    ∀ gm : GameManager,
      Chained gm (GameManager.runBattle n gm).strikes (GameManager.runBattle n gm).state := by
  induction n with
  | zero => intro gm; rw [runBattle_zero]; simp [Chained]
  | succ n ih =>
    intro gm
    by_cases hx : gm.round.exited = true
    · rw [runBattle_succ_exited n gm hx]
      exact round_chained gm
    · have hx0 : gm.round.exited = false := by simpa using hx
      rw [runBattle_succ_continue n gm hx0]
      exact chained_append (round_chained gm) (ih _)

/-- A property of states kept by every strike of a chain holds at its end, and
just before and just after each of its strikes, when it holds at its start. -/
theorem chained_invariant (I : GameManager → Prop) :
    ∀ (log : List Strike) (g g' : GameManager), Chained g log g' →
      (∀ s ∈ log, I s.before → I s.after) → I g →
      I g' ∧ ∀ s ∈ log, I s.before ∧ I s.after := by
  intro log
  induction log with
  | nil =>
    intro g g' hc _ h0
    simp only [Chained] at hc
    subst hc
    exact ⟨h0, fun s hs => by cases hs⟩
  | cons s rest ih =>
    intro g g' hc hstep h0
    simp only [Chained] at hc
    obtain ⟨hb, hrest⟩ := hc
    have hsb : I s.before := by rw [hb]; exact h0
    have hsa : I s.after := hstep s (List.mem_cons_self _ _) hsb
    obtain ⟨h1, h2⟩ := ih s.after g' hrest
      (fun u hu => hstep u (List.mem_cons_of_mem _ hu)) hsa
    refine ⟨h1, ?_⟩
    intro u hu
    rcases List.mem_cons.1 hu with rfl | hu
    · exact ⟨hsb, hsa⟩
    · exact h2 u hu

/-! ### What a turn does to each roster -/

theorem pointwise_getElem {R : Character → Character → Prop} {l l' : List Character}
    (h : Pointwise R l l') (i : Nat) :
    (l[i]? = none ∧ l'[i]? = none) ∨ ∃ c c', l[i]? = some c ∧ l'[i]? = some c' ∧ R c c' := by
  unfold Pointwise at h
  induction h generalizing i with
  | nil => left; simp
  | cons hab _ ih =>
    cases i with
    | zero => right; exact ⟨_, _, by simp, by simp, hab⟩
    | succ i => simpa using ih i

/-- The attacked roster after a turn is related to the one before by every
preorder that relates a target to its state after an attack. -/
theorem phaseAux_targets_pointwise {R : Character → Character → Prop}
    (hrefl : ∀ c, R c c) (htrans : ∀ a b c, R a b → R b c → R a c)
    (hatk : ∀ a t : Character, 0 < a.hp_ → 0 < t.hp_ → R t (a.attack t).2)
    (byHero : Bool) (todo : List Character) :
    ∀ (done targets : List Character),
      Pointwise R targets (phaseAux byHero done todo targets).targets := by
  induction todo with
  | nil => intro done targets; rw [phaseAux_nil]; exact pointwise_refl hrefl _
  | cons a rest ih =>
    intro done targets
    by_cases ha : a.isAlive = true
    · cases hf : findTarget targets with
      | none =>
        rw [phaseAux_no_target byHero done rest ha hf]
        exact pointwise_refl hrefl _
      | some p =>
        obtain ⟨j, t⟩ := p
        rw [phaseAux_strike byHero done rest ha hf]
        exact pointwise_trans htrans
          (pointwise_set_target hrefl hf
            (hatk a t ((isAlive_iff a).1 ha) (findTarget_some_spec hf).2.1))
          (ih _ _)
    · have ha0 : a.isAlive = false := by simpa using ha
      rw [phaseAux_dead byHero done rest targets ha0]
      exact ih _ _

/-- The acting roster after a turn is related to the one before by every
preorder that relates an attacker to its state after an attack. -/
theorem phaseAux_attackers_pointwise {R : Character → Character → Prop}
    (hrefl : ∀ c, R c c)
    (hatk : ∀ a t : Character, 0 < a.hp_ → 0 < t.hp_ → R a (a.attack t).1)
    (byHero : Bool) (todo : List Character) :
    ∀ (done targets : List Character),
      ∃ todo', (phaseAux byHero done todo targets).attackers = done ++ todo' ∧
        Pointwise R todo todo' := by
  induction todo with
  | nil =>
    intro done targets
    rw [phaseAux_nil]
    exact ⟨[], by simp, List.Forall₂.nil⟩
  | cons a rest ih =>
    intro done targets
    by_cases ha : a.isAlive = true
    · cases hf : findTarget targets with
      | none =>
        rw [phaseAux_no_target byHero done rest ha hf]
        exact ⟨a :: rest, rfl, pointwise_refl hrefl _⟩
      | some p =>
        obtain ⟨j, t⟩ := p
        rw [phaseAux_strike byHero done rest ha hf]
        obtain ⟨todo', h1, h2⟩ := ih (done ++ [(a.attack t).1]) (targets.set j (a.attack t).2)
        refine ⟨(a.attack t).1 :: todo', by simpa using h1, ?_⟩
        exact List.Forall₂.cons
          (hatk a t ((isAlive_iff a).1 ha) (findTarget_some_spec hf).2.1) h2
    · have ha0 : a.isAlive = false := by simpa using ha
      rw [phaseAux_dead byHero done rest targets ha0]
      obtain ⟨todo', h1, h2⟩ := ih (done ++ [a]) targets
      exact ⟨a :: todo', by simpa using h1, List.Forall₂.cons (hrefl a) h2⟩

/-! ### Attack counters and the record of strikes -/

theorem strikesBy_nil (byHero : Bool) (i : Nat) : strikesBy byHero i [] = 0 := rfl

theorem strikesBy_cons (byHero : Bool) (i : Nat) (s : Strike) (l : List Strike) :
    strikesBy byHero i (s :: l) =
      strikesBy byHero i l + (if s.byHero = byHero ∧ s.attackerIdx = i then 1 else 0) := by
  unfold strikesBy
  rw [List.countP_cons]
  by_cases h1 : s.byHero = byHero <;> by_cases h2 : s.attackerIdx = i <;> simp [h1, h2]

theorem countsAdvance_refl (byHero : Bool) (l : List Character) :
    CountsAdvance byHero [] l l := by
  intro i
  cases h : l[i]? <;> simp [strikesBy_nil]

/-- After a turn the counter of every attacker is the old one plus the number of
strikes it made in the turn. -/
theorem phaseAux_counts (byHero : Bool) (todo : List Character) :
    ∀ (done targets : List Character),
      CountsAdvance byHero (phaseAux byHero done todo targets).strikes (done ++ todo)
        (phaseAux byHero done todo targets).attackers := by
  induction todo with
  | nil =>
    intro done targets
    rw [phaseAux_nil]
    simpa using countsAdvance_refl byHero done
  | cons a rest ih =>
    intro done targets
    by_cases ha : a.isAlive = true
    · cases hf : findTarget targets with
      | none =>
        rw [phaseAux_no_target byHero done rest ha hf]
        exact countsAdvance_refl byHero _
      | some p =>
        obtain ⟨j, t⟩ := p
        rw [phaseAux_strike byHero done rest ha hf]
        have hih := ih (done ++ [(a.attack t).1]) (targets.set j (a.attack t).2)
        intro i
        have e := hih i
        simp only [List.append_assoc, List.singleton_append] at e
        simp only [strikesBy_cons, true_and]
        rw [e]
        by_cases hi : done.length = i
        · subst hi
          rw [getElem?_append_length, getElem?_append_length, attack_alive a t ((isAlive_iff a).1 ha)]
          simp only [Option.map_some', if_true, Option.some.injEq]
          push_cast
          ring
        · rw [← set_append_length done a (a.attack t).1 rest, List.getElem?_set_ne hi]
          simp [hi]
    · have ha0 : a.isAlive = false := by simpa using ha
      rw [phaseAux_dead byHero done rest targets ha0]
      have hih := ih (done ++ [a]) targets
      simpa using hih

theorem attack_target_count (a t : Character) :
    (a.attack t).2.attackCount_ = t.attackCount_ := by
  unfold Character.attack
  split <;> rfl

theorem phase_counts (byHero : Bool) (attackers targets : List Character) :
    CountsAdvance byHero (phase byHero attackers targets).strikes attackers
      (phase byHero attackers targets).attackers ∧
    Pointwise (fun o n => n.attackCount_ = o.attackCount_) targets
      (phase byHero attackers targets).targets := by
  refine ⟨by simpa [phase] using phaseAux_counts byHero attackers [] targets, ?_⟩
  exact @phaseAux_targets_pointwise (fun o n => n.attackCount_ = o.attackCount_)
    (fun _ => rfl) (fun _ _ _ h1 h2 => h2.trans h1)
    (fun a t _ _ => attack_target_count a t) byHero attackers [] targets

/-- An alive attacker either strikes in its turn, or the turn has ended early,
at or before its turn, after strikes of earlier attackers only. -/
theorem phaseAux_complete (byHero : Bool) (todo : List Character) :
    ∀ (done targets : List Character) (k : Nat) (a : Character),
      todo[k]? = some a → 0 < a.hp_ →
      (∃ s ∈ (phaseAux byHero done todo targets).strikes, s.attackerIdx = done.length + k) ∨
      ((phaseAux byHero done todo targets).returned = true ∧
        ∀ s ∈ (phaseAux byHero done todo targets).strikes, s.attackerIdx < done.length + k) := by
  induction todo with
  | nil => intro done targets k a h; simp at h
  | cons a0 rest ih =>
    intro done targets k a hk hpos
    by_cases ha : a0.isAlive = true
    · cases hf : findTarget targets with
      | none =>
        rw [phaseAux_no_target byHero done rest ha hf]
        right
        exact ⟨rfl, fun s hs => by cases hs⟩
      | some p =>
        obtain ⟨j, t⟩ := p
        rw [phaseAux_strike byHero done rest ha hf]
        cases k with
        | zero => left; exact ⟨_, List.mem_cons_self _ _, rfl⟩
        | succ k =>
          simp only [List.getElem?_cons_succ] at hk
          rcases ih (done ++ [(a0.attack t).1]) (targets.set j (a0.attack t).2) k a hk hpos
            with ⟨s, hs, hidx⟩ | ⟨hret, hall⟩
          · left
            refine ⟨s, List.mem_cons_of_mem _ hs, ?_⟩
            simp only [List.length_append, List.length_singleton] at hidx
            omega
          · right
            refine ⟨hret, ?_⟩
            intro s hs
            rcases List.mem_cons.1 hs with rfl | hs
            · simp only []; omega
            · have := hall s hs
              simp only [List.length_append, List.length_singleton] at this
              omega
    · have ha0 : a0.isAlive = false := by simpa using ha
      rw [phaseAux_dead byHero done rest targets ha0]
      cases k with
      | zero =>
        simp only [List.getElem?_cons_zero, Option.some.injEq] at hk
        subst hk
        exact absurd ((isAlive_iff _).2 hpos) ha
      | succ k =>
        simp only [List.getElem?_cons_succ] at hk
        rcases ih (done ++ [a0]) targets k a hk hpos with ⟨s, hs, hidx⟩ | ⟨hret, hall⟩
        · left
          refine ⟨s, hs, ?_⟩
          simp only [List.length_append, List.length_singleton] at hidx
          omega
        · right
          refine ⟨hret, ?_⟩
          intro s hs
          have := hall s hs
          simp only [List.length_append, List.length_singleton] at this
          omega

theorem recordOf_filterMap (l : List (String × String × Int × Int))
    (h : ∀ r ∈ l, (knownType r.1).isNone = false) :
    List.Forall₂ RecordOf l (l.filterMap recordCharacter) := by
  induction l with
  | nil => simp
  | cons r l ih =>
    have hr := h r (List.mem_cons_self _ _)
    cases hk : knownType r.1 with
    | none => rw [hk] at hr; simp at hr
    | some t =>
      have hrc : recordCharacter r =
          some { type := t, name_ := r.2.1, hp_ := r.2.2.1, ap_ := r.2.2.2, attackCount_ := 0 } := by
        simp [recordCharacter, hk]
      rw [List.filterMap_cons_some hrc]
      exact List.Forall₂.cons ⟨hk, rfl, rfl, rfl, rfl⟩
        (ih (fun q hq => h q (List.mem_cons_of_mem _ hq)))

theorem sound_after {s : Strike} (h : s.Sound) :
    ∃ a t : Character,
      (acting s.byHero s.before)[s.attackerIdx]? = some a ∧
      (opposing s.byHero s.before)[s.targetIdx]? = some t ∧
      0 < a.hp_ ∧ 0 < t.hp_ ∧
      (acting s.byHero s.after)[s.attackerIdx]? = some (a.attack t).1 ∧
      (opposing s.byHero s.after)[s.targetIdx]? = some (a.attack t).2 := by
  obtain ⟨a, t, h1, h2, h3, h4, _, h6, h7⟩ := h
  refine ⟨a, t, h1, h2, h3, h4, ?_, ?_⟩
  · rw [h6]
    obtain ⟨hlt, _⟩ := List.getElem?_eq_some.1 h1
    exact List.getElem?_set_self hlt
  · rw [h7]
    obtain ⟨hlt, _⟩ := List.getElem?_eq_some.1 h2
    exact List.getElem?_set_self hlt

/-! ### Claims on the loader and the reporter -/

/-- C11: result of the loader.  For an input that can be opened and whose
non-empty lines each yield the four fields: if some record has a class that is
not one of Archer, Warrior, Mage, Enemy, the load fails with "Unknown character
type: " followed by the class of the first such record, and `main` exits with
code 1, writes nothing to standard output and "Error: " with that message to
standard error, whatever the bound on the battle loop (no battle is run);
otherwise the load succeeds, the heroes are exactly the records with class other
than Enemy in file order and the enemies exactly the records with class Enemy in
file order, each with the given name, hp, ap and attack count 0.  The one-line
input of scenario S6 fails with "Unknown character type: Wizard". -/
theorem loadCharacters_result (extract : Extraction)
    (openFile : String → Option (List String)) (filename : String) (lines : List String)
    (hopen : openFile filename = some lines)
    (hparse : ∀ l ∈ lines, l ≠ "" → (extract l).isSome = true) :
    (∀ r, firstUnknown (parsedRecords extract lines) = some r →
      knownType r.1 = none ∧
      GameManager.loadCharacters extract openFile filename { heroes_ := [], enemies_ := [] } =
        Except.error ("Unknown character type: " ++ r.1) ∧
      ∀ (argv0 : String) (more : List String) (n : Nat),
        main extract openFile argv0 (filename :: more) n =
          some { exitCode := 1, stdout := "",
                 stderr := "Error: " ++ ("Unknown character type: " ++ r.1) ++ "\n" }) ∧
    (firstUnknown (parsedRecords extract lines) = none →
      ∃ gm : GameManager,
        GameManager.loadCharacters extract openFile filename { heroes_ := [], enemies_ := [] } =
          Except.ok gm ∧
        List.Forall₂ RecordOf ((parsedRecords extract lines).filter (fun r => r.1 ≠ "Enemy"))
          gm.heroes_ ∧
        List.Forall₂ RecordOf ((parsedRecords extract lines).filter (fun r => r.1 = "Enemy"))
          gm.enemies_) ∧
    main extractS6 (fun _ => some ["Wizard Merlin 30 4"]) "game" ["input.txt"] 0 =
      some { exitCode := 1, stdout := "", stderr := "Error: Unknown character type: Wizard\n" } := by
  have hload : GameManager.loadCharacters extract openFile filename
      { heroes_ := [], enemies_ := [] } =
      GameManager.loadLines extract lines { heroes_ := [], enemies_ := [] } := by
    simp [GameManager.loadCharacters, hopen]
  have hspec := loadLines_spec extract lines hparse { heroes_ := [], enemies_ := [] }
  refine ⟨?_, ?_, by decide⟩
  · intro r hr
    rw [hr] at hspec
    have hk : knownType r.1 = none := by
      have := List.find?_some hr
      simpa using this
    refine ⟨hk, by rw [hload, hspec], ?_⟩
    intro argv0 more n
    simp only [main, hload, hspec]
  · intro hnone
    rw [hnone] at hspec
    have hall : ∀ r ∈ parsedRecords extract lines, (knownType r.1).isNone = false := by
      intro r hr
      have := List.find?_eq_none.1 hnone r hr
      cases hk : knownType r.1 with
      | none => simp [hk] at this
      | some t => rfl
    refine ⟨_, by rw [hload, hspec], ?_, ?_⟩
    · simp only [List.nil_append]
      exact recordOf_filterMap _ (fun r hr => hall r (List.mem_of_mem_filter hr))
    · simp only [List.nil_append]
      exact recordOf_filterMap _ (fun r hr => hall r (List.mem_of_mem_filter hr))

theorem loadCharacters_result_witness :
    (fun _ => some ["Mage Gandalf 100 10", "", "Enemy Orc 80 5"] : String → Option (List String))
        "s1.txt" = some ["Mage Gandalf 100 10", "", "Enemy Orc 80 5"] ∧
    (∀ l ∈ ["Mage Gandalf 100 10", "", "Enemy Orc 80 5"], l ≠ "" → (extractS1 l).isSome = true) ∧
    firstUnknown (parsedRecords extractS1 ["Mage Gandalf 100 10", "", "Enemy Orc 80 5"]) = none ∧
    ∃ gm : GameManager,
      GameManager.loadCharacters extractS1
          (fun _ => some ["Mage Gandalf 100 10", "", "Enemy Orc 80 5"]) "s1.txt"
          { heroes_ := [], enemies_ := [] } = Except.ok gm ∧
      List.Forall₂ RecordOf
        ((parsedRecords extractS1 ["Mage Gandalf 100 10", "", "Enemy Orc 80 5"]).filter
          (fun r => r.1 ≠ "Enemy")) gm.heroes_ ∧
      List.Forall₂ RecordOf
        ((parsedRecords extractS1 ["Mage Gandalf 100 10", "", "Enemy Orc 80 5"]).filter
          (fun r => r.1 = "Enemy")) gm.enemies_ :=
  ⟨rfl, by decide, by decide,
    (loadCharacters_result extractS1
      (fun _ => some ["Mage Gandalf 100 10", "", "Enemy Orc 80 5"]) "s1.txt"
      ["Mage Gandalf 100 10", "", "Enemy Orc 80 5"] rfl (by decide)).2.1 (by decide)⟩

/-- C12: order and format of the report.  For all rosters `printResults` appends
to the output one line per combatant, all heroes first in roster order and then
all enemies in roster order, the line of a combatant being its name, " - HP: ",
its hp in decimal, and ", Status: Alive" when its hp is positive and
", Status: Defeated" otherwise, followed by exactly one line holding the text of
`determineOutcome` (an empty line when that text is empty); every line is ended
by a newline.  For the final state of scenario S1 the report is the one of the
specification. -/
theorem printResults_report (gm : GameManager) (cout : String) :
    gm.printResults cout = cout ++ unlines (reportLines gm) ∧
    (reportLines gm).length = gm.heroes_.length + gm.enemies_.length + 1 ∧
    (∀ i (h : i < gm.heroes_.length), (reportLines gm)[i]? = some (reportLine gm.heroes_[i])) ∧
    (∀ i (h : i < gm.enemies_.length),
      (reportLines gm)[gm.heroes_.length + i]? = some (reportLine gm.enemies_[i])) ∧
    (reportLines gm)[gm.heroes_.length + gm.enemies_.length]? = some gm.determineOutcome ∧
    (GameManager.runBattle 4 scenarioS1).state.printResults "" =
      "Gandalf - HP: 80, Status: Alive\nOrc - HP: 0, Status: Defeated\nYour party has won the battle!\n" := by
  refine ⟨?_, ?_, ?_, ?_, ?_, by decide⟩
  · unfold GameManager.printResults reportLines
    simp only [foldl_printCharacter, unlines_append, unlines, String.append_assoc,
      String.append_empty]
  · simp [reportLines]
    omega
  · intro i h
    unfold reportLines
    rw [List.append_assoc, List.getElem?_append_left (by simpa using h)]
    simp [h]
  · intro i h
    unfold reportLines
    rw [List.append_assoc, List.getElem?_append_right (by simp)]
    simp only [List.length_map, Nat.add_sub_cancel_left]
    rw [List.getElem?_append_left (by simpa using h)]
    simp [h]
  · unfold reportLines
    rw [List.getElem?_append_right (by simp)]
    simp

/-! ### Claims on single attacks of the run -/

/-- C13: Mage freshness.  For all rosters and every bound, the strikes of the run
form a chain of states starting in the initial state, and for every strike the
target is read in the state just before the strike (the state left by all earlier
strikes): when the attacker is a Mage whose counter after the increment is a
multiple of 3, the target leaves the strike after one `receiveDamage` of
`2 * ap_ + h / 2`, where `h > 0` is the target's `hp_` just before the strike.
In scenario S1 Gandalf's third attack finds Orc at 60 and leaves it at 10 (damage
50), and the run ends in round 4 with Gandalf 80, Orc 0 and the verdict "Your
party has won the battle!".  In a two-hero scenario the Mage's special attack in
round 3 finds the target at 135, not at the 160 of the start of the round, and
leaves it at 48. -/
theorem mage_freshness (gm : GameManager) (n : Nat) :
    Chained gm (GameManager.runBattle n gm).strikes (GameManager.runBattle n gm).state ∧
    (∀ s ∈ (GameManager.runBattle n gm).strikes, ∃ a t : Character,
      (acting s.byHero s.before)[s.attackerIdx]? = some a ∧
      (opposing s.byHero s.before)[s.targetIdx]? = some t ∧
      0 < a.hp_ ∧ 0 < t.hp_ ∧
      ((a.type = CharType.Mage ∧ (a.attackCount_ + 1) % 3 = 0) →
        (opposing s.byHero s.after)[s.targetIdx]? =
          some (t.receiveDamage (2 * a.ap_ + t.hp_ / 2)))) ∧
    ((GameManager.runBattle 4 scenarioS1).strikes[4]?.map
        (fun s => (s.byHero, s.before.enemies_.map Character.hp_,
          s.after.enemies_.map Character.hp_)) = some (true, [60], [10]) ∧
      (GameManager.runBattle 4 scenarioS1).finished = true ∧
      (GameManager.runBattle 4 scenarioS1).state.heroes_.map Character.hp_ = [80] ∧
      (GameManager.runBattle 4 scenarioS1).state.enemies_.map Character.hp_ = [0] ∧
      (GameManager.runBattle 4 scenarioS1).state.determineOutcome =
        "Your party has won the battle!") ∧
    ((GameManager.runBattle 3 scenarioFresh).strikes[6]?.map
        (fun s => (s.byHero, s.attackerIdx, s.before.enemies_.map Character.hp_)) =
          some (true, 0, [160]) ∧
      (GameManager.runBattle 3 scenarioFresh).strikes[7]?.map
        (fun s => (s.byHero, s.attackerIdx, s.before.enemies_.map Character.hp_,
          s.after.enemies_.map Character.hp_)) = some (true, 1, [135], [48])) := by
  refine ⟨runBattle_chained n gm, ?_, by decide, by decide⟩
  intro s hs
  obtain ⟨a, t, h1, h2, h3, h4, _, h6⟩ := sound_after (runBattle_sound n gm s hs)
  refine ⟨a, t, h1, h2, h3, h4, ?_⟩
  rintro ⟨hm, hc⟩
  rw [h6, attack_alive a t h3, if_pos hc]
  simp only [Character.specialAttackDamage, hm, Character.getHP]
  rw [Int.tdiv_eq_ediv (le_of_lt h4) (by decide)]

theorem phase_complete (byHero : Bool) (attackers targets : List Character)
    (i : Nat) (a : Character) (hi : attackers[i]? = some a) (hpos : 0 < a.hp_) :
    (∃ s ∈ (phase byHero attackers targets).strikes, s.attackerIdx = i) ∨
    ((phase byHero attackers targets).returned = true ∧
      ¬ SomeAlive (phase byHero attackers targets).targets ∧
      ∀ s ∈ (phase byHero attackers targets).strikes, s.attackerIdx < i) := by
  rcases phaseAux_complete byHero attackers [] targets i a hi hpos with h | ⟨h1, h2⟩
  · left
    simpa [phase] using h
  · right
    refine ⟨h1, ?_, by simpa [phase] using h2⟩
    intro hal
    have hnone := phaseAux_returned byHero attackers [] targets h1
    have hsome : anyAlive (phaseAux byHero [] attackers targets).targets = true :=
      (anyAlive_iff _).2 hal
    rw [hnone] at hsome
    cases hsome

/-- C14: per-attacker target selection.  In every turn (of the heroes or of the
enemies, from any rosters): every strike is made by an alive attacker on the
first combatant of the opposing roster that is alive in the state just before the
strike, and changes nothing but that attacker and that target; the strikes form a
chain from the state at the start of the turn to the state at its end, so the
state just before a strike is the one produced by all earlier strikes of the
turn; the strikes are made in roster order, at most one per attacker; and every
alive attacker strikes, unless the turn has ended early, at or before its visit,
with no opposing combatant alive.  Hence no strike of a run is ever applied to a
combatant that is not alive.  Two Warriors 50/10 against enemies with hp 5 and hp
20 leave the enemies at 0 and 10 after the first turn of the heroes: the second
Warrior skips the enemy defeated by the first. -/
theorem target_selection (byHero : Bool) (attackers targets : List Character)
    (gm : GameManager) (n : Nat) :
    (∀ s ∈ (phase byHero attackers targets).strikes, s.Sound ∧ s.byHero = byHero) ∧
    Chained (mkState byHero attackers targets) (phase byHero attackers targets).strikes
      (mkState byHero (phase byHero attackers targets).attackers
        (phase byHero attackers targets).targets) ∧
    List.Pairwise (fun i j => i < j)
      ((phase byHero attackers targets).strikes.map Strike.attackerIdx) ∧
    (∀ (i : Nat) (a : Character), attackers[i]? = some a → 0 < a.hp_ →
      (∃ s ∈ (phase byHero attackers targets).strikes, s.attackerIdx = i) ∨
      ((phase byHero attackers targets).returned = true ∧
        ¬ SomeAlive (phase byHero attackers targets).targets ∧
        ∀ s ∈ (phase byHero attackers targets).strikes, s.attackerIdx < i)) ∧
    (∀ s ∈ (GameManager.runBattle n gm).strikes, s.Sound) ∧
    ((phase true scenarioTwoOnTwo.heroes_ scenarioTwoOnTwo.enemies_).targets.map Character.hp_ =
        [0, 10] ∧
      (phase true scenarioTwoOnTwo.heroes_ scenarioTwoOnTwo.enemies_).strikes.map
        (fun s => (s.attackerIdx, s.targetIdx)) = [(0, 0), (1, 1)]) := by
  refine ⟨phase_sound byHero attackers targets, phase_chained byHero attackers targets,
    phaseAux_ordered byHero attackers [] targets, phase_complete byHero attackers targets,
    runBattle_sound n gm, by decide⟩

theorem phaseAux_no_target_frame (byHero : Bool) (todo : List Character) :
    ∀ (done targets : List Character), anyAlive targets = false →
      (phaseAux byHero done todo targets).attackers = done ++ todo ∧
      (phaseAux byHero done todo targets).targets = targets ∧
      (phaseAux byHero done todo targets).strikes = [] := by
  induction todo with
  | nil => intro done targets _; rw [phaseAux_nil]; simp
  | cons a rest ih =>
    intro done targets h
    by_cases ha : a.isAlive = true
    · rw [phaseAux_no_target byHero done rest ha ((findTarget_eq_none targets).2 h)]
      exact ⟨rfl, rfl, rfl⟩
    · have ha0 : a.isAlive = false := by simpa using ha
      rw [phaseAux_dead byHero done rest targets ha0]
      simpa using ih (done ++ [a]) targets h

theorem anyAlive_false_iff (cs : List Character) : anyAlive cs = false ↔ ¬ SomeAlive cs := by
  unfold SomeAlive
  rw [← anyAlive_iff]
  simp

theorem anyAlive_false_dead {cs : List Character} (h : anyAlive cs = false) :
    ∀ a ∈ cs, a.hp_ ≤ 0 := by
  intro a ha
  by_contra hc
  have : anyAlive cs = true := (anyAlive_iff cs).2 ⟨a, ha, by omega⟩
  rw [h] at this
  cases this

/-- A round that starts with nobody alive on one side leaves the loop without a
strike and without changing the state. -/
theorem round_idle (gm : GameManager)
    (h : anyAlive gm.heroes_ = false ∨ anyAlive gm.enemies_ = false) :
    gm.round = { state := gm, exited := true, strikes := [] } := by
  rw [round_eq]
  rcases h with h | h
  · have hph : phase true gm.heroes_ gm.enemies_ =
        { attackers := gm.heroes_, targets := gm.enemies_, returned := false, strikes := [] } := by
      have := phaseAux_no_alive_attacker true gm.heroes_ [] gm.enemies_ (anyAlive_false_dead h)
      simpa [phase] using this
    rw [hph]
    simp only []
    by_cases he : anyAlive gm.enemies_ = false
    · rw [if_pos (Or.inr he)]
    · have he1 : anyAlive gm.enemies_ = true := by simpa using he
      rw [if_neg (by simp [he1])]
      obtain ⟨f1, f2, f3⟩ := phaseAux_no_target_frame false gm.enemies_ [] gm.heroes_ h
      have f4 := phaseAux_no_alive_target false gm.enemies_ [] gm.heroes_ h
        ((anyAlive_iff gm.enemies_).1 he1)
      simp only [phase, f1, f2, f3, f4, List.nil_append, Bool.true_or, List.append_nil]
  · obtain ⟨f1, f2, f3⟩ := phaseAux_no_target_frame true gm.heroes_ [] gm.enemies_ h
    have hc : (phase true gm.heroes_ gm.enemies_).returned = true ∨
        anyAlive (phase true gm.heroes_ gm.enemies_).targets = false := by
      right
      simp only [phase, f2]
      exact h
    rw [if_pos hc]
    simp only [phase, f1, f2, f3, List.nil_append]

theorem runBattle_idle (gm : GameManager) (n : Nat)
    (h : anyAlive gm.heroes_ = false ∨ anyAlive gm.enemies_ = false) :
    GameManager.runBattle (n + 1) gm = { state := gm, finished := true, strikes := [] } := by
  have hr := round_idle gm h
  rw [runBattle_succ_exited n gm (by rw [hr])]
  rw [hr]

theorem anyAlive_nil : anyAlive [] = false := rfl

theorem determineOutcome_won (gm : GameManager) (h1 : anyAlive gm.heroes_ = true)
    (h2 : anyAlive gm.enemies_ = false) :
    gm.determineOutcome = "Your party has won the battle!" := by
  simp [GameManager.determineOutcome, h1, h2]

theorem determineOutcome_draw_iff (gm : GameManager) :
    gm.determineOutcome = "The battle ended in a draw!" ↔
      (anyAlive gm.heroes_ = false ∧ anyAlive gm.enemies_ = false) := by
  unfold GameManager.determineOutcome
  cases anyAlive gm.heroes_ <;> cases anyAlive gm.enemies_ <;> decide

theorem pointwise_someAlive {l l' : List Character}
    (h : Pointwise (fun o n => n.hp_ = o.hp_) l l') (hl : SomeAlive l) : SomeAlive l' := by
  unfold Pointwise at h
  induction h with
  | nil => obtain ⟨c, hc, _⟩ := hl; cases hc
  | cons hab _ ih =>
    obtain ⟨c, hc, hpos⟩ := hl
    rcases List.mem_cons.1 hc with rfl | hc
    · exact ⟨_, List.mem_cons_self _ _, by rw [hab]; exact hpos⟩
    · obtain ⟨d, hd, hdpos⟩ := ih ⟨c, hc, hpos⟩
      exact ⟨d, List.mem_cons_of_mem _ hd, hdpos⟩

/-- After at least one full round that has not left the loop, both sides have an
alive combatant. -/
theorem runBattle_unfinished_alive (n : Nat) :
    ∀ gm : GameManager, (GameManager.runBattle (n + 1) gm).finished = false →
      SomeAlive (GameManager.runBattle (n + 1) gm).state.heroes_ ∧
      SomeAlive (GameManager.runBattle (n + 1) gm).state.enemies_ := by
  induction n with
  | zero =>
    intro gm h
    by_cases hx : gm.round.exited = true
    · rw [runBattle_succ_exited 0 gm hx] at h
      cases h
    · have hx0 : gm.round.exited = false := by simpa using hx
      rw [runBattle_succ_continue 0 gm hx0, runBattle_zero]
      obtain ⟨_, h2, _, h4, h5⟩ := round_continue_spec gm hx0
      simp only []
      rw [h5]
      refine ⟨(anyAlive_iff _).1 h4, ?_⟩
      have hdec := @phaseAux_attackers_pointwise (fun o n => n.hp_ = o.hp_) (fun _ => rfl)
        (fun a t ha _ => by rw [attack_alive a t ha]) false
        (phase true gm.heroes_ gm.enemies_).targets []
        (phase true gm.heroes_ gm.enemies_).attackers
      obtain ⟨todo', e1, e2⟩ := hdec
      simp only [List.nil_append] at e1
      have e1' : (phase false (phase true gm.heroes_ gm.enemies_).targets
          (phase true gm.heroes_ gm.enemies_).attackers).attackers = todo' := e1
      rw [e1']
      exact pointwise_someAlive e2 ((anyAlive_iff _).1 h2)
  | succ n ih =>
    intro gm h
    by_cases hx : gm.round.exited = true
    · rw [runBattle_succ_exited (n + 1) gm hx] at h
      cases h
    · have hx0 : gm.round.exited = false := by simpa using hx
      rw [runBattle_succ_continue (n + 1) gm hx0] at h ⊢
      exact ih gm.round.state h

theorem phase_attackers_hp (byHero : Bool) (attackers targets : List Character) :
    Pointwise (fun o n => n.hp_ = o.hp_) attackers (phase byHero attackers targets).attackers := by
  obtain ⟨todo', e1, e2⟩ := @phaseAux_attackers_pointwise (fun o n => n.hp_ = o.hp_)
    (fun _ => rfl) (fun a t ha _ => by rw [attack_alive a t ha]) byHero attackers [] targets
  simp only [List.nil_append] at e1
  have e1' : (phase byHero attackers targets).attackers = todo' := e1
  rw [e1']
  exact e2

/-! ### Claims on how the run ends -/

/-- C15 fails on the code for a state with no alive hero: with one hero and one
enemy both at hp 0 the turn of the heroes leaves no enemy alive, the run ends in
that round, and the verdict is a draw, not a victory of the heroes. -/
theorem no_alive_hero_gives_draw :
    anyAlive (phase true scenarioAllDefeated.heroes_ scenarioAllDefeated.enemies_).targets =
      false ∧
    (GameManager.runBattle 1 scenarioAllDefeated).finished = true ∧
    (GameManager.runBattle 1 scenarioAllDefeated).state.determineOutcome =
      "The battle ended in a draw!" ∧
    (GameManager.runBattle 1 scenarioAllDefeated).state.determineOutcome ≠
      "Your party has won the battle!" := by
  decide

/-- C15 (amended): hero-first asymmetry.  For every state with an alive hero in
which the turn of the heroes leaves no enemy alive, the run started in that state
leaves the loop in its first round before the turn of the enemies: the final
state is the state left by the turn of the heroes, every strike of the run is a
strike of a hero, no hero's `hp_` and no enemy's `attackCount_` differs from the
start of the round, and the verdict is "Your party has won the battle!".  After
any number of full rounds that have not left the loop some hero is alive, so the
condition on the heroes can fail only in the state in which the run starts.  In
scenario S4 the run ends with A at 10, B at 0 and the heroes' victory. -/
theorem hero_first_asymmetry (gm : GameManager) (n : Nat)
    (hhero : SomeAlive gm.heroes_)
    (hleft : ¬ SomeAlive (phase true gm.heroes_ gm.enemies_).targets) :
    GameManager.runBattle (n + 1) gm =
      { state :=
          { heroes_ := (phase true gm.heroes_ gm.enemies_).attackers,
            enemies_ := (phase true gm.heroes_ gm.enemies_).targets },
        finished := true,
        strikes := (phase true gm.heroes_ gm.enemies_).strikes } ∧
    (∀ s ∈ (GameManager.runBattle (n + 1) gm).strikes, s.byHero = true) ∧
    Pointwise (fun o n => n.hp_ = o.hp_) gm.heroes_
      (GameManager.runBattle (n + 1) gm).state.heroes_ ∧
    Pointwise (fun o n => n.attackCount_ = o.attackCount_) gm.enemies_
      (GameManager.runBattle (n + 1) gm).state.enemies_ ∧
    (GameManager.runBattle (n + 1) gm).state.determineOutcome =
      "Your party has won the battle!" ∧
    (∀ (g : GameManager) (k : Nat), (GameManager.runBattle (k + 1) g).finished = false →
      SomeAlive (GameManager.runBattle (k + 1) g).state.heroes_) ∧
    ((GameManager.runBattle 1 scenarioS4).finished = true ∧
      (GameManager.runBattle 1 scenarioS4).state.heroes_.map Character.hp_ = [10] ∧
      (GameManager.runBattle 1 scenarioS4).state.enemies_.map Character.hp_ = [0] ∧
      (GameManager.runBattle 1 scenarioS4).state.determineOutcome =
        "Your party has won the battle!") := by
  have hnone : anyAlive (phase true gm.heroes_ gm.enemies_).targets = false :=
    (anyAlive_false_iff _).2 hleft
  have hround : gm.round =
      { state :=
          { heroes_ := (phase true gm.heroes_ gm.enemies_).attackers,
            enemies_ := (phase true gm.heroes_ gm.enemies_).targets },
        exited := true,
        strikes := (phase true gm.heroes_ gm.enemies_).strikes } := by
    rw [round_eq, if_pos (Or.inr hnone)]
  have hrun : GameManager.runBattle (n + 1) gm =
      { state :=
          { heroes_ := (phase true gm.heroes_ gm.enemies_).attackers,
            enemies_ := (phase true gm.heroes_ gm.enemies_).targets },
        finished := true,
        strikes := (phase true gm.heroes_ gm.enemies_).strikes } := by
    rw [runBattle_succ_exited n gm (by rw [hround]), hround]
  have hhp := phase_attackers_hp true gm.heroes_ gm.enemies_
  refine ⟨hrun, ?_, ?_, ?_, ?_, fun g k h => (runBattle_unfinished_alive k g h).1, by decide⟩
  · intro s hs
    rw [hrun] at hs
    exact (phase_sound _ _ _ s hs).2
  · rw [hrun]
    exact hhp
  · rw [hrun]
    exact (phase_counts true gm.heroes_ gm.enemies_).2
  · rw [hrun]
    exact determineOutcome_won _ ((anyAlive_iff _).2 (pointwise_someAlive hhp hhero)) hnone

theorem hero_first_asymmetry_witness :
    SomeAlive scenarioS4.heroes_ ∧
    ¬ SomeAlive (phase true scenarioS4.heroes_ scenarioS4.enemies_).targets ∧
    GameManager.runBattle (0 + 1) scenarioS4 =
      { state :=
          { heroes_ := (phase true scenarioS4.heroes_ scenarioS4.enemies_).attackers,
            enemies_ := (phase true scenarioS4.heroes_ scenarioS4.enemies_).targets },
        finished := true,
        strikes := (phase true scenarioS4.heroes_ scenarioS4.enemies_).strikes } ∧
    (GameManager.runBattle (0 + 1) scenarioS4).state.determineOutcome =
      "Your party has won the battle!" :=
  ⟨(anyAlive_iff _).1 (by decide), (anyAlive_false_iff _).1 (by decide),
    (hero_first_asymmetry scenarioS4 0 ((anyAlive_iff _).1 (by decide))
      ((anyAlive_false_iff _).1 (by decide))).1,
    (hero_first_asymmetry scenarioS4 0 ((anyAlive_iff _).1 (by decide))
      ((anyAlive_false_iff _).1 (by decide))).2.2.2.2.1⟩

/-- C16: empty or already-defeated side.  For all rosters in which, when the run
starts, a side is empty or has no alive combatant, the run leaves the loop in its
first round without a single strike and returns the state unchanged, so every
combatant keeps its `hp_` and `attackCount_`.  In scenario S5 Lone stays at 10 and
the verdict is "The enemies have won the battle!". -/
theorem idle_side_run (gm : GameManager) (n : Nat)
    (h : gm.heroes_ = [] ∨ gm.enemies_ = [] ∨
      ¬ SomeAlive gm.heroes_ ∨ ¬ SomeAlive gm.enemies_) :
    GameManager.runBattle (n + 1) gm = { state := gm, finished := true, strikes := [] } ∧
    ((GameManager.runBattle 1 scenarioS5).finished = true ∧
      (GameManager.runBattle 1 scenarioS5).strikes = [] ∧
      (GameManager.runBattle 1 scenarioS5).state.enemies_.map Character.hp_ = [10] ∧
      (GameManager.runBattle 1 scenarioS5).state.determineOutcome =
        "The enemies have won the battle!") := by
  refine ⟨runBattle_idle gm n ?_, by decide⟩
  rcases h with h | h | h | h
  · left; rw [h]; rfl
  · right; rw [h]; rfl
  · left; exact (anyAlive_false_iff _).2 h
  · right; exact (anyAlive_false_iff _).2 h

theorem idle_side_run_witness :
    (scenarioS5.heroes_ = [] ∨ scenarioS5.enemies_ = [] ∨
      ¬ SomeAlive scenarioS5.heroes_ ∨ ¬ SomeAlive scenarioS5.enemies_) ∧
    GameManager.runBattle (0 + 1) scenarioS5 =
      { state := scenarioS5, finished := true, strikes := [] } :=
  ⟨Or.inl rfl, (idle_side_run scenarioS5 0 (Or.inl rfl)).1⟩

/-! ### The sum of all hp over a round -/

theorem chained_getLast :
    ∀ (log : List Strike) (g g' : GameManager) (s : Strike), Chained g log g' →
      log.getLast? = some s → s.after = g' := by
  intro log
  induction log with
  | nil => intro g g' s _ h; simp at h
  | cons u rest ih =>
    intro g g' s hc hlast
    simp only [Chained] at hc
    cases rest with
    | nil =>
      simp only [List.getLast?_singleton, Option.some.injEq] at hlast
      subst hlast
      simpa [Chained] using hc.2
    | cons v rest' =>
      rw [List.getLast?_cons_cons] at hlast
      exact ih u.after g' s hc.2 hlast

theorem sound_striker_alive {s : Strike} (h : s.Sound) : SomeAlive (acting s.byHero s.after) := by
  obtain ⟨a, t, _, _, ha, _, h5, _⟩ := sound_after h
  refine ⟨(a.attack t).1, List.getElem?_mem h5, ?_⟩
  rw [attack_alive a t ha]
  exact ha

theorem attack_attacker_hp (a t : Character) : (a.attack t).1.hp_ = a.hp_ := by
  unfold Character.attack
  split <;> rfl

theorem focusedFire_refl (l : List Character) : FocusedFire l l := by
  intro i j ci cj c0 _ _ hj h0 hne
  rw [hj] at h0
  cases h0
  exact absurd rfl hne

/-- Replacing a combatant by one with the same hp keeps focused fire. -/
theorem focusedFire_set_same_hp {initial current : List Character} {k : Nat} {a a' : Character}
    (h : FocusedFire initial current) (hk : current[k]? = some a) (hhp : a'.hp_ = a.hp_) :
    FocusedFire initial (current.set k a') := by
  have hold : ∀ (i : Nat) (c : Character), (current.set k a')[i]? = some c →
      ∃ c', current[i]? = some c' ∧ c'.hp_ = c.hp_ := by
    intro i c hc
    by_cases hik : k = i
    · subst hik
      obtain ⟨hlt, _⟩ := List.getElem?_eq_some.1 hk
      rw [List.getElem?_set_self hlt] at hc
      cases hc
      exact ⟨a, hk, hhp.symm⟩
    · rw [List.getElem?_set_ne hik] at hc
      exact ⟨c, hc, rfl⟩
  intro i j ci cj c0 hij hi hj h0 hne
  obtain ⟨ci', hi', hci⟩ := hold i ci hi
  obtain ⟨cj', hj', hcj⟩ := hold j cj hj
  have := h i j ci' cj' c0 hij hi' hj' h0 (by rw [hcj]; exact hne)
  omega

/-- Replacing the first alive combatant keeps focused fire. -/
theorem focusedFire_set_first_alive {initial current : List Character} {k : Nat}
    {t : Character} (t' : Character)
    (h : FocusedFire initial current) (hk : current[k]? = some t) (htpos : 0 < t.hp_)
    (hfirst : ∀ (i : Nat) (c : Character), i < k → current[i]? = some c → c.hp_ ≤ 0) :
    FocusedFire initial (current.set k t') := by
  intro i j ci cj c0 hij hi hj h0 hne
  by_cases hjk : k = j
  · subst hjk
    have hik : k ≠ i := by omega
    rw [List.getElem?_set_ne hik] at hi
    exact hfirst i ci hij hi
  · rw [List.getElem?_set_ne hjk] at hj
    by_cases hik : k = i
    · subst hik
      have := h k j t cj c0 hij hk hj h0 hne
      omega
    · rw [List.getElem?_set_ne hik] at hi
      exact h i j ci cj c0 hij hi hj h0 hne

/-- A sound strike keeps focused fire on both rosters. -/
theorem sound_keeps_focusedFire (gm : GameManager) {s : Strike} (hs : s.Sound)
    (h : FocusedFire gm.heroes_ s.before.heroes_ ∧ FocusedFire gm.enemies_ s.before.enemies_) :
    FocusedFire gm.heroes_ s.after.heroes_ ∧ FocusedFire gm.enemies_ s.after.enemies_ := by
  obtain ⟨a, t, h1, h2, _, h4, h5, h6, h7⟩ := hs
  cases hb : s.byHero with
  | true =>
    rw [hb] at h1 h2 h5 h6 h7
    simp only [acting, opposing, if_true] at h1 h2 h5 h6 h7
    rw [h6, h7]
    exact ⟨focusedFire_set_same_hp h.1 h1 (attack_attacker_hp a t),
      focusedFire_set_first_alive _ h.2 h2 h4 h5⟩
  | false =>
    rw [hb] at h1 h2 h5 h6 h7
    simp only [acting, opposing, Bool.false_eq_true, if_false] at h1 h2 h5 h6 h7
    rw [h6, h7]
    exact ⟨focusedFire_set_first_alive _ h.1 h2 h4 h5,
      focusedFire_set_same_hp h.2 h1 (attack_attacker_hp a t)⟩

theorem firePrefix_of_focusedFire {initial current : List Character}
    (h : FocusedFire initial current) : FirePrefix initial current := by
  intro k ck c0k hk h0k hpos hne
  refine ⟨fun i ci hik hi => h i k ci ck c0k hik hi hk h0k hne, ?_⟩
  intro j cj c0 hkj hj h0
  by_contra hc
  have := h k j ck cj c0 hkj hk hj h0 hc
  omega

/-- C19: a draw is never produced by combat.  For all rosters (any integer hp
and ap) on which the run has returned, the verdict after the run is "The battle
ended in a draw!" if and only if no combatant on either side was alive before the
run; and when at least one strike was made, the side of the attacker of the last
strike has an alive combatant in the final state. -/
theorem draw_only_without_combat (gm : GameManager) (n : Nat)
    (hfin : (GameManager.runBattle n gm).finished = true) :
    ((GameManager.runBattle n gm).state.determineOutcome = "The battle ended in a draw!" ↔
      (¬ SomeAlive gm.heroes_ ∧ ¬ SomeAlive gm.enemies_)) ∧
    (∀ s : Strike, (GameManager.runBattle n gm).strikes.getLast? = some s →
      SomeAlive (acting s.byHero (GameManager.runBattle n gm).state)) := by
  have hlast : ∀ s : Strike, (GameManager.runBattle n gm).strikes.getLast? = some s →
      SomeAlive (acting s.byHero (GameManager.runBattle n gm).state) := by
    intro s hs
    have hafter := chained_getLast _ _ _ s (runBattle_chained n gm) hs
    have hsound := runBattle_sound n gm s (List.mem_of_mem_getLast? hs)
    rw [← hafter]
    exact sound_striker_alive hsound
  refine ⟨?_, hlast⟩
  rw [determineOutcome_draw_iff, anyAlive_false_iff, anyAlive_false_iff]
  constructor
  · rintro ⟨hh, he⟩
    cases hl : (GameManager.runBattle n gm).strikes.getLast? with
    | none =>
      have hnil := List.getLast?_eq_none_iff.1 hl
      have hc := runBattle_chained n gm
      rw [hnil] at hc
      simp only [Chained] at hc
      rw [hc]
      exact ⟨hh, he⟩
    | some s =>
      have := hlast s hl
      cases hb : s.byHero with
      | true =>
        rw [hb] at this
        exact absurd this hh
      | false =>
        rw [hb] at this
        exact absurd this he
  · rintro ⟨hh, he⟩
    cases n with
    | zero => rw [runBattle_zero] at hfin; cases hfin
    | succ n =>
      rw [runBattle_idle gm n (Or.inl ((anyAlive_false_iff _).2 hh))]
      exact ⟨hh, he⟩

theorem draw_only_without_combat_witness :
    (GameManager.runBattle 1 scenarioAllDefeated).finished = true ∧
    ((GameManager.runBattle 1 scenarioAllDefeated).state.determineOutcome =
        "The battle ended in a draw!" ↔
      (¬ SomeAlive scenarioAllDefeated.heroes_ ∧ ¬ SomeAlive scenarioAllDefeated.enemies_)) :=
  ⟨by decide, (draw_only_without_combat scenarioAllDefeated 1 (by decide)).1⟩

/-- C20: focused-fire prefix invariant.  For all rosters and after any number of
rounds of the run (and also just before and just after every strike), for any
two positions `i < j` of the same side, if the combatant at `j` has an hp
different from its hp before the run, the combatant at `i` is not alive.  So if
a combatant is alive and its hp differs from the initial one, everyone before it
on its side is not alive and everyone after it has its initial hp; hence each
side has at most one such combatant.  In a three-on-three battle that starts with
hp 6, 9, 30 against 7, 12, 40, the rosters after two rounds have hp 0, 9, 30 and
0, 1, 40. -/
theorem focused_fire (gm : GameManager) (n : Nat) :
    (FocusedFire gm.heroes_ (GameManager.runBattle n gm).state.heroes_ ∧
      FocusedFire gm.enemies_ (GameManager.runBattle n gm).state.enemies_) ∧
    (∀ s ∈ (GameManager.runBattle n gm).strikes,
      (FocusedFire gm.heroes_ s.before.heroes_ ∧ FocusedFire gm.enemies_ s.before.enemies_) ∧
      (FocusedFire gm.heroes_ s.after.heroes_ ∧ FocusedFire gm.enemies_ s.after.enemies_)) ∧
    (FirePrefix gm.heroes_ (GameManager.runBattle n gm).state.heroes_ ∧
      FirePrefix gm.enemies_ (GameManager.runBattle n gm).state.enemies_) ∧
    ((GameManager.runBattle 2 scenarioThreeOnThree).state.heroes_.map Character.hp_ =
        [0, 9, 30] ∧
      (GameManager.runBattle 2 scenarioThreeOnThree).state.enemies_.map Character.hp_ =
        [0, 1, 40]) := by
  have hinv := chained_invariant
    (fun g => FocusedFire gm.heroes_ g.heroes_ ∧ FocusedFire gm.enemies_ g.enemies_)
    (GameManager.runBattle n gm).strikes gm (GameManager.runBattle n gm).state
    (runBattle_chained n gm)
    (fun s hs hb => sound_keeps_focusedFire gm (runBattle_sound n gm s hs) hb)
    ⟨focusedFire_refl _, focusedFire_refl _⟩
  exact ⟨hinv.1, hinv.2,
    ⟨firePrefix_of_focusedFire hinv.1.1, firePrefix_of_focusedFire hinv.1.2⟩, by decide⟩

/-! ### A battle that never ends -/

/-- With ap 0 on both sides a round changes nothing but the two counters, and
does not leave the loop. -/
theorem round_zeroAp (k k' : Int) :
    (zeroApState k k').round.exited = false ∧
    (zeroApState k k').round.state = zeroApState (k + 1) (k' + 1) := by
  have hA : ∀ (c : Int) (t : Character),
      Character.attack
        { type := CharType.Archer, name_ := "A", hp_ := 10, ap_ := 0, attackCount_ := c } t =
      ({ type := CharType.Archer, name_ := "A", hp_ := 10, ap_ := 0, attackCount_ := c + 1 },
        t.receiveDamage 0) := by
    intro c t
    rw [attack_alive _ t (show (0 : Int) < 10 by decide)]
    simp [Character.specialAttackDamage]
  have hB : ∀ (c : Int) (t : Character),
      Character.attack
        { type := CharType.Enemy, name_ := "B", hp_ := 10, ap_ := 0, attackCount_ := c } t =
      ({ type := CharType.Enemy, name_ := "B", hp_ := 10, ap_ := 0, attackCount_ := c + 1 },
        t.receiveDamage 0) := by
    intro c t
    rw [attack_alive _ t (show (0 : Int) < 10 by decide)]
    simp [Character.specialAttackDamage]
  have hh : phase true (zeroApState k k').heroes_ (zeroApState k k').enemies_ =
      { attackers := (zeroApState (k + 1) k').heroes_,
        targets := (zeroApState (k + 1) k').enemies_,
        returned := false,
        strikes := (phase true (zeroApState k k').heroes_ (zeroApState k k').enemies_).strikes } := by
    simp [phase, phaseAux, findTarget, Character.isAlive, hA, Character.receiveDamage,
      zeroApState]
  have he : phase false (zeroApState (k + 1) k').enemies_ (zeroApState (k + 1) k').heroes_ =
      { attackers := (zeroApState (k + 1) (k' + 1)).enemies_,
        targets := (zeroApState (k + 1) (k' + 1)).heroes_,
        returned := false,
        strikes := (phase false (zeroApState (k + 1) k').enemies_
          (zeroApState (k + 1) k').heroes_).strikes } := by
    simp [phase, phaseAux, findTarget, Character.isAlive, hB, Character.receiveDamage,
      zeroApState]
  rw [round_eq, hh]
  simp only []
  have ha1 : anyAlive (zeroApState (k + 1) k').enemies_ = true := by
    simp [zeroApState, anyAlive, Character.isAlive]
  rw [if_neg (by simp [ha1]), he]
  simp only []
  have ha2 : anyAlive (zeroApState (k + 1) (k' + 1)).heroes_ = true := by
    simp [zeroApState, anyAlive, Character.isAlive]
  simp [ha2]

theorem runBattle_zeroAp (n : Nat) :
    ∀ k k' : Int,
      (GameManager.runBattle n (zeroApState k k')).finished = false ∧
      (GameManager.runBattle n (zeroApState k k')).state = zeroApState (k + n) (k' + n) := by
  induction n with
  | zero => intro k k'; rw [runBattle_zero]; simp
  | succ n ih =>
    intro k k'
    obtain ⟨h1, h2⟩ := round_zeroAp k k'
    rw [runBattle_succ_continue n _ h1, h2]
    obtain ⟨i1, i2⟩ := ih (k + 1) (k' + 1)
    refine ⟨i1, ?_⟩
    simp only []
    rw [i2]
    push_cast
    congr 1 <;> ring

/-- C21: the condition ap > 0 of termination is necessary.  The two-line input
`Archer A 10 0`, `Enemy B 10 0` is accepted by the loader and gives non-empty
rosters with attack counters 0 and every ap equal to 0; for every bound `n` the
loop of `runBattle` has not been left after `n` rounds, both combatants still have
hp 10 (only the two counters have grown, to `n`), and `main` has not returned. -/
theorem zero_ap_never_terminates (n : Nat) :
    GameManager.loadCharacters extractZeroAp
        (fun _ => some ["Archer A 10 0", "Enemy B 10 0"]) "input.txt"
        { heroes_ := [], enemies_ := [] } = Except.ok (zeroApState 0 0) ∧
    ((zeroApState 0 0).heroes_ ≠ [] ∧ (zeroApState 0 0).enemies_ ≠ [] ∧
      ∀ c ∈ (zeroApState 0 0).heroes_ ++ (zeroApState 0 0).enemies_,
        c.ap_ = 0 ∧ c.attackCount_ = 0) ∧
    (GameManager.runBattle n (zeroApState 0 0)).finished = false ∧
    (GameManager.runBattle n (zeroApState 0 0)).state = zeroApState n n ∧
    (GameManager.runBattle n (zeroApState 0 0)).state.heroes_.map Character.hp_ = [10] ∧
    (GameManager.runBattle n (zeroApState 0 0)).state.enemies_.map Character.hp_ = [10] ∧
    main extractZeroAp (fun _ => some ["Archer A 10 0", "Enemy B 10 0"]) "game" ["input.txt"] n =
      none := by
  have hload : GameManager.loadCharacters extractZeroAp
      (fun _ => some ["Archer A 10 0", "Enemy B 10 0"]) "input.txt"
      { heroes_ := [], enemies_ := [] } = Except.ok (zeroApState 0 0) := by rfl
  obtain ⟨h1, h2⟩ := runBattle_zeroAp n 0 0
  have h2' : (GameManager.runBattle n (zeroApState 0 0)).state = zeroApState n n := by
    rw [h2]; simp
  refine ⟨hload, by decide, h1, h2', ?_, ?_, ?_⟩
  · rw [h2']; rfl
  · rw [h2']; rfl
  · simp only [main, hload, h1]
    rfl

/-! ### Arithmetic within the range of `int` -/

/-- C2 (amended): for every combatant whose `hp_` is an `int` and every negative
`d` for which `hp_ - d` does not exceed `INT_MAX` (the subtraction does not
overflow), `receiveDamage d` sets `hp_` to `max 0 (hp_ - d)`, which is strictly
larger than the `hp_` before the call and is again an `int`; a negative amount
is not treated as 0. -/
theorem receiveDamage_negative (c : Character) (d : Int) (hd : d < 0)
    (hhp : InIntRange c.hp_) (hfit : c.hp_ - d ≤ INT_MAX) :
    (c.receiveDamage d).hp_ = max 0 (c.hp_ - d) ∧
    c.hp_ < (c.receiveDamage d).hp_ ∧
    InIntRange (c.hp_ - d) ∧ InIntRange (c.receiveDamage d).hp_ := by
  unfold InIntRange at *
  unfold INT_MIN at *
  unfold INT_MAX at *
  refine ⟨rfl, ?_, ⟨by omega, hfit⟩, ?_⟩
  · simp only [Character.receiveDamage]
    rcases le_total 0 (c.hp_ - d) with h | h
    · rw [max_eq_right h]; omega
    · rw [max_eq_left h]; omega
  · simp only [Character.receiveDamage]
    rcases le_total 0 (c.hp_ - d) with h | h
    · rw [max_eq_right h]; omega
    · rw [max_eq_left h]; omega

theorem receiveDamage_negative_witness :
    (-3 : Int) < 0 ∧ InIntRange (Character.mk0 CharType.Mage "M" 0 1).hp_ ∧
    (Character.mk0 CharType.Mage "M" 0 1).hp_ - (-3) ≤ INT_MAX ∧
    ((Character.mk0 CharType.Mage "M" 0 1).receiveDamage (-3)).hp_ = max 0 (0 - (-3)) ∧
    (Character.mk0 CharType.Mage "M" 0 1).hp_ <
      ((Character.mk0 CharType.Mage "M" 0 1).receiveDamage (-3)).hp_ :=
  ⟨by decide, by decide, by decide,
    (receiveDamage_negative (Character.mk0 CharType.Mage "M" 0 1) (-3) (by decide) (by decide)
      (by decide)).1,
    (receiveDamage_negative (Character.mk0 CharType.Mage "M" 0 1) (-3) (by decide) (by decide)
      (by decide)).2.1⟩

theorem pointwise_opposing {R : Character → Character → Prop} (byHero : Bool)
    {g g' : GameManager} (h : StatePointwise R g g') :
    Pointwise R (opposing byHero g) (opposing byHero g') := by
  cases byHero
  · exact h.1
  · exact h.2

/-- C9 (amended): HP floor for combatants that start with `hp_ ≥ 0`.
`createCharacter` stores `hp` unchanged.  For all rosters (any integer `hp_` and
`ap_`) and every bound `n`, at every position of either roster a combatant whose
initial `hp_` is non-negative has `hp_ ≥ 0` just before and just after every
strike of the run and in the state reached (the final state when the run has
returned).  A combatant whose initial `hp_` is negative is never the target of a
strike and has that same negative `hp_` just before and just after every strike
and in the state reached. -/
theorem hp_floor (gm : GameManager) (n : Nat) :
    (∀ (type name : String) (hp ap : Int) (c : Character),
      createCharacter type name hp ap = Except.ok c → c.hp_ = hp) ∧
    (∀ s ∈ (GameManager.runBattle n gm).strikes,
      StatePointwise HpFloorKept gm s.before ∧ StatePointwise HpFloorKept gm s.after) ∧
    StatePointwise HpFloorKept gm (GameManager.runBattle n gm).state ∧
    (∀ s ∈ (GameManager.runBattle n gm).strikes,
      StatePointwise NegativeHpKept gm s.before ∧ StatePointwise NegativeHpKept gm s.after ∧
      ∀ c0 : Character, (opposing s.byHero gm)[s.targetIdx]? = some c0 → 0 ≤ c0.hp_) ∧
    StatePointwise NegativeHpKept gm (GameManager.runBattle n gm).state := by
  have hrefl : ∀ c, HpFloorKept c c := fun _ h => h
  have htrans : ∀ a b c, HpFloorKept a b → HpFloorKept b c → HpFloorKept a c :=
    fun _ _ _ h1 h2 h => h2 (h1 h)
  have hrun := @runBattle_pointwise HpFloorKept (fun _ => True) hrefl htrans
    (fun _ _ _ _ => trivial)
    (fun a t _ _ _ _ => attack_floor a t) n gm ⟨fun _ _ => trivial, fun _ _ => trivial⟩
  have nrefl : ∀ c, NegativeHpKept c c := fun _ _ => rfl
  have ntrans : ∀ a b c, NegativeHpKept a b → NegativeHpKept b c → NegativeHpKept a c := by
    intro a b c h1 h2 h
    have e1 := h1 h
    have e2 := h2 (by rw [e1]; exact h)
    rw [e2, e1]
  have nrun := @runBattle_pointwise NegativeHpKept (fun _ => True) nrefl ntrans
    (fun _ _ _ _ => trivial)
    (fun a t _ _ ha ht => ⟨fun h => by omega, fun h => by omega⟩) n gm
    ⟨fun _ _ => trivial, fun _ _ => trivial⟩
  refine ⟨?_, ?_, hrun.1, ?_, nrun.1⟩
  · intro type name hp ap c h
    unfold createCharacter at h
    split at h
    · cases h; rfl
    · split at h
      · cases h; rfl
      · split at h
        · cases h; rfl
        · split at h
          · cases h; rfl
          · cases h
  · intro s hs
    exact ⟨(hrun.2 s hs).1, statePointwise_trans htrans (hrun.2 s hs).1 (hrun.2 s hs).2⟩
  · intro s hs
    refine ⟨(nrun.2 s hs).1, statePointwise_trans ntrans (nrun.2 s hs).1 (nrun.2 s hs).2, ?_⟩
    intro c0 hc0
    obtain ⟨a, t, _, h2, _, h4, _, _⟩ := sound_after (runBattle_sound n gm s hs)
    rcases pointwise_getElem (pointwise_opposing s.byHero (nrun.2 s hs).1) s.targetIdx
      with ⟨g1, _⟩ | ⟨c, c', g1, g2, g3⟩
    · rw [hc0] at g1; cases g1
    · rw [hc0] at g1
      cases g1
      rw [h2] at g2
      cases g2
      by_contra hneg
      have := g3 (by omega)
      omega

end RPG
